import Mathlib

/-!
# Verification of the fulfillment-system core

Shallow embedding of the allocation/packing core of the fulfillment
system: the in-memory inventory ledger (`InventoryService`), the order
queue (`OrderQueueService`), the greedy first-fit packing strategy
(`GreedyFirstFitStrategy`) and the fulfillment orchestrator
(`FulfillmentService`).

Modelling conventions:
* JavaScript numbers are modelled as `Nat` for item quantities, masses
  and identifiers (the HTTP layer validates shapes, and the data model
  restricts these to non-negative integers), and as `Int` for
  `quantityInStock`, so that non-negativity of stock is a provable
  property rather than a typing artifact.
* The JS `Map` backing the catalog is modelled as an association list
  of `ProductEntity` keyed by `productId` (first-match lookup, in-place
  update of the first match, append on fresh keys), which matches the
  insertion-ordered semantics of `Map`.
* The durable store mirrors the in-memory state; reads in the source
  that go through the repository (`findOne`, `find` with `order:
  createdAt ASC`) are modelled as lookups/stable sorts over the order
  table held in the state.
* Thrown exceptions become an `Option Err` paired with the post-state,
  because the source catches, logs and rethrows while keeping whatever
  in-memory mutations happened before the throw.
-/

namespace Fulfillment

/-- A `{productId, quantity}` pair, the shape used for requested items,
shipped items, restock entries and package lines throughout the source. -/
structure Item where
  productId : Nat
  quantity : Nat
deriving DecidableEq, Repr

/-- `ProductEntity` from `database/models`: catalog row with current stock.
Stock is `Int` so that the non-negativity invariant is a theorem. -/
structure ProductEntity where
  productId : Nat
  productName : String
  massG : Nat
  quantityInStock : Int
deriving DecidableEq, Repr

/-- Product descriptor accepted by `initCatalog`. -/
structure ProductInfo where
  product_id : Nat
  product_name : String
  mass_g : Nat
deriving DecidableEq, Repr

/-- `OrderStatus` enum from `database/models`. -/
inductive OrderStatus where
  | pending
  | partiallyFulfilled
  | fulfilled
deriving DecidableEq, Repr

/-- `OrderEntity`: one order row. `createdAt` is an abstract timestamp
(`Nat`), assigned from a logical clock at creation and never changed. -/
structure OrderEntity where
  orderId : Nat
  requestedItems : List Item
  shippedItems : List Item
  status : OrderStatus
  totalShipments : Nat
  createdAt : Nat
deriving DecidableEq, Repr

/-- `ShipmentEntity`: one persisted shipment (package) record. -/
structure ShipmentEntity where
  orderId : Nat
  shippedItems : List Item
  totalMassG : Nat
deriving DecidableEq, Repr

/-- Error taxonomy raised by the core (thrown `Error`s in the source). -/
inductive Err where
  | alreadyInitialized
  | productNotFound (productId : Nat)
  | insufficientStock (productId : Nat) (available : Int) (requested : Nat)
  | orderNotFound (orderId : Nat)
  | shipmentExceedsCeiling (massG : Nat) (limitG : Nat)
deriving DecidableEq, Repr

/-- The in-memory state of `InventoryService`: the catalog `Map` and the
`isInitialized` flag. -/
structure Inv where
  catalog : List ProductEntity
  isInitialized : Bool
deriving DecidableEq, Repr

/-- `this.catalog.get(productId)`: first entry with the given id. -/
def findProduct (catalog : List ProductEntity) (pid : Nat) : Option ProductEntity :=
  match catalog with
  | [] => none
  | p :: rest => if p.productId == pid then some p else findProduct rest pid

/-- `items.find(item => item.productId === pid)`: first entry with the
given product id in an item list. -/
def findItem (items : List Item) (pid : Nat) : Option Item :=
  match items with
  | [] => none
  | it :: rest => if it.productId == pid then some it else findItem rest pid

/-- `this.catalog.set(productId, product)`: replace the first entry with
the given key, or append if the key is fresh (JS `Map` semantics). -/
def setProduct (catalog : List ProductEntity) (product : ProductEntity) : List ProductEntity :=
  match catalog with
  | [] => [product]
  | p :: rest =>
    if p.productId == product.productId then product :: rest
    else p :: setProduct rest product

/-- Adjust the stock of the first entry with key `pid` by `f` (models the
in-place mutation `product.quantityInStock += / -= …` of the entity held
in the `Map`). A missing key leaves the catalog unchanged. -/
def adjustStock (catalog : List ProductEntity) (pid : Nat) (f : Int → Int) :
    List ProductEntity :=
  match catalog with
  | [] => []
  | p :: rest =>
    if p.productId == pid then { p with quantityInStock := f p.quantityInStock } :: rest
    else p :: adjustStock rest pid f

namespace Inv

/-- `InventoryService.initCatalog`: refuses re-initialization, otherwise
clears the catalog and installs every listed product with stock `0`
(initialization never seeds stock), finally marking the catalog
initialized. Returns the thrown error (if any) with the post-state. -/
def initCatalog (inv : Inv) (productInfo : List ProductInfo) : Option Err × Inv :=
  if inv.isInitialized then
    (some .alreadyInitialized, inv)
  else
    let catalog := productInfo.foldl
      (fun c info => setProduct c
        { productId := info.product_id
          productName := info.product_name
          massG := info.mass_g
          quantityInStock := 0 })
      []
    (none, { catalog := catalog, isInitialized := true })

/-- `InventoryService.processRestock`: per entry, increment the stock of
a known product; unknown product ids are logged and skipped. -/
def processRestock (inv : Inv) (restock : List Item) : Inv :=
  { inv with
    catalog := restock.foldl
      (fun c item =>
        match findProduct c item.productId with
        | none => c
        | some _ => adjustStock c item.productId (fun q => q + item.quantity))
      inv.catalog }

/-- The validation/mutation loop of `InventoryService.reserveStock`. The
source walks the items, and for each one looks the product up, throws
`ProductNotFound` / `InsufficientStock` on a bad item, and otherwise
decrements the entity held in the in-memory `Map` *before* moving to the
next item. A throw mid-list therefore leaves the decrements of the
already-processed items in place (the catch handler only logs and
rethrows). -/
def reserveGo (catalog : List ProductEntity) :
    List Item → Option Err × List ProductEntity
  | [] => (none, catalog)
  | item :: rest =>
    match findProduct catalog item.productId with
    | none => (some (.productNotFound item.productId), catalog)
    | some p =>
      if p.quantityInStock < (item.quantity : Int) then
        (some (.insufficientStock item.productId p.quantityInStock item.quantity), catalog)
      else
        reserveGo (adjustStock catalog item.productId (fun q => q - item.quantity)) rest

/-- `InventoryService.reserveStock`. -/
def reserveStock (inv : Inv) (items : List Item) : Option Err × Inv :=
  let (e, catalog) := reserveGo inv.catalog items
  (e, { inv with catalog := catalog })

/-- `InventoryService.getAvailableStock`: `0` for unknown products. -/
def getAvailableStock (inv : Inv) (pid : Nat) : Int :=
  match findProduct inv.catalog pid with
  | none => 0
  | some p => p.quantityInStock

/-- `InventoryService.getProduct`. -/
def getProduct (inv : Inv) (pid : Nat) : Option ProductEntity :=
  findProduct inv.catalog pid

/-- `InventoryService.calculateTotalMass`: sum of `massG * quantity`
over known products, unknown products contribute zero. Also the body of
`GreedyFirstFitStrategy.calculateShipmentWeight`. -/
def calculateTotalMass (inv : Inv) (items : List Item) : Nat :=
  items.foldl
    (fun total item =>
      match findProduct inv.catalog item.productId with
      | some p => total + p.massG * item.quantity
      | none => total)
    0

/-- `InventoryService.resetCatalog`. -/
def resetCatalog (_inv : Inv) : Inv :=
  { catalog := [], isInitialized := false }

end Inv

/-! ## Greedy first-fit packing strategy (`ShipmentStrategy.ts`) -/

/-- A package: the list of `{productId, quantity}` lines of one shipment. -/
abbrev Package := List Item

/-- Merge one `{productId, quantity}` entry into an item list: add the
quantity to the first entry with the same product id, or append a new
entry. This is the `find`-then-`+=`-or-`push` idiom that the source uses
in three places: merging a line into an open package
(`GreedyFirstFitStrategy.packShipment`), accumulating `allBatchItems`
(`FulfillmentService.batchShipPackages`) and accumulating
`order.shippedItems` (`OrderQueueService.updateOrderShipment`). -/
def mergeItem : List Item → Item → List Item
  | [], it => [it]
  | e :: rest, it =>
    if e.productId == it.productId then
      { e with quantity := e.quantity + it.quantity } :: rest
    else
      e :: mergeItem rest it

/-- Fold a list of entries into an accumulator with `mergeItem`. -/
def mergeInto (acc : List Item) (items : List Item) : List Item :=
  items.foldl mergeItem acc

/-- An input item annotated with its unit weight, as built by the
`itemsWithWeight` pre-pass of `GreedyFirstFitStrategy.packShipment`. -/
structure WItem where
  productId : Nat
  quantity : Nat
  unitWeight : Nat
deriving DecidableEq, Repr

/-- The `for (const shipment of shipments)` scan of
`GreedyFirstFitStrategy.packShipment`: find the first open package with
residual capacity for at least one unit, add as many units as fit
(`unitsToAdd = min(floor((maxW - weight)/unitWeight), remaining)`) and
stop. Returns the updated package list and the number of units added, or
`none` if no open package had room. -/
def tryAddFirstFit (inv : Inv) (maxWeightG : Nat) (pid unitWeight remaining : Nat) :
    List Package → Option (List Package × Nat)
  | [] => none
  | s :: rest =>
    let currentWeight := inv.calculateTotalMass s
    let availableWeight := maxWeightG - currentWeight
    let maxAddableUnits := availableWeight / unitWeight
    let unitsToAdd := min maxAddableUnits remaining
    if 0 < unitsToAdd then
      some (mergeItem s ⟨pid, unitsToAdd⟩ :: rest, unitsToAdd)
    else
      match tryAddFirstFit inv maxWeightG pid unitWeight remaining rest with
      | some (rest', k) => some (s :: rest', k)
      | none => none

/-- The body of the `while (remainingQuantity > 0)` loop of
`GreedyFirstFitStrategy.packShipment` for a single weighted item:
if no unit of the product can ever fit in an empty package
(`floor(maxW/unitWeight) = 0`) the remainder of the item is skipped;
otherwise units are placed into the first open package with room, or a
new package is opened with `min(floor(maxW/unitWeight), remaining)`
units. Each iteration either exits the loop or strictly decreases
`remaining`, so `remaining` bounds the number of iterations; the `fuel`
argument runs the loop body that many times, which makes the recursion
structural (and the kernel able to evaluate it) without changing the
computed value. -/
def packItemGo (inv : Inv) (maxWeightG pid unitWeight : Nat) :
    (fuel remaining : Nat) → List Package → List Package
  | 0, _, shipments => shipments
  | fuel + 1, remaining, shipments =>
    if remaining = 0 then shipments
    else
      if maxWeightG / unitWeight = 0 then shipments
      else
        match tryAddFirstFit inv maxWeightG pid unitWeight remaining shipments with
        | some (shipments', k) =>
          packItemGo inv maxWeightG pid unitWeight fuel (remaining - k) shipments'
        | none =>
          packItemGo inv maxWeightG pid unitWeight fuel
            (remaining - min (maxWeightG / unitWeight) remaining)
            (shipments ++ [[⟨pid, min (maxWeightG / unitWeight) remaining⟩]])

/-- The `while (remainingQuantity > 0)` loop, entered with
`remainingQuantity = item.quantity`. -/
def packItem (inv : Inv) (maxWeightG pid unitWeight : Nat)
    (remaining : Nat) (shipments : List Package) : List Package :=
  packItemGo inv maxWeightG pid unitWeight remaining remaining shipments

/-- `GreedyFirstFitStrategy.packShipment`: annotate items with unit
weights, drop unknown products and non-positive quantities, sort by unit
weight descending (a stable sort, matching the JS array sort), then pack
each item in turn with the first-fit loop. -/
def packShipment (inv : Inv) (items : List Item) (maxWeightG : Nat) : List Package :=
  let itemsWithWeight :=
    (items.filterMap (fun item =>
      match inv.getProduct item.productId with
      | some p =>
        if 0 < item.quantity then
          some (⟨item.productId, item.quantity, p.massG⟩ : WItem)
        else none
      | none => none)).insertionSort (fun a b => b.unitWeight ≤ a.unitWeight)
  itemsWithWeight.foldl
    (fun shipments it =>
      packItem inv maxWeightG it.productId it.unitWeight it.quantity shipments)
    []

/-! ## Order queue (`OrderQueueService`) -/

/-- `repository.findOne({ where: { orderId } })` over the order table:
first row with the given id. -/
def findOrder (orders : List OrderEntity) (oid : Nat) : Option OrderEntity :=
  match orders with
  | [] => none
  | o :: rest => if o.orderId == oid then some o else findOrder rest oid

/-- `repository.save(order)` for an existing row: replace the first
entry with the same `orderId`, keeping table order. -/
def replaceOrder (orders : List OrderEntity) (order : OrderEntity) : List OrderEntity :=
  match orders with
  | [] => []
  | o :: rest =>
    if o.orderId == order.orderId then order :: rest
    else o :: replaceOrder rest order

/-- `OrderQueueService.enqueueOrder`: if the order id exists its
requested items are replaced and its status reset to `PENDING` (its
shipped items, shipment count and creation time are untouched);
otherwise a fresh row is created with empty shipped items, status
`PENDING`, zero shipments and the current clock as `createdAt`. Returns
the updated table and the saved entity. -/
def enqueueOrder (orders : List OrderEntity) (now : Nat) (orderId : Nat)
    (requestedItems : List Item) : List OrderEntity × OrderEntity :=
  match findOrder orders orderId with
  | some o =>
    let o' := { o with requestedItems := requestedItems, status := OrderStatus.pending }
    (replaceOrder orders o', o')
  | none =>
    let o : OrderEntity :=
      { orderId := orderId
        requestedItems := requestedItems
        shippedItems := []
        status := OrderStatus.pending
        totalShipments := 0
        createdAt := now }
    (orders ++ [o], o)

/-- `OrderQueueService.getPendingOrders`: the repository query
`find({ where: [{status: PENDING}, {status: PARTIALLY_FULFILLED}],
order: { createdAt: "ASC" } })`, modelled as a stable sort by
`createdAt` of the rows whose status is pending or partially
fulfilled. -/
def getPendingOrders (orders : List OrderEntity) : List OrderEntity :=
  (orders.filter (fun o =>
      o.status == OrderStatus.pending || o.status == OrderStatus.partiallyFulfilled)
    ).insertionSort (fun a b => a.createdAt ≤ b.createdAt)

/-- `OrderQueueService.isOrderFulfilled`: every requested product has
shipped quantity at least its requested quantity. -/
def isOrderFulfilled (order : OrderEntity) : Bool :=
  order.requestedItems.all (fun req =>
    let shippedQuantity :=
      match findItem order.shippedItems req.productId with
      | some s => s.quantity
      | none => 0
    !(shippedQuantity < req.quantity))

/-- `OrderQueueService.getRemainingItems`: requested minus shipped per
product, keeping only entries with a positive remainder. -/
def getRemainingItems (order : OrderEntity) : List Item :=
  order.requestedItems.filterMap (fun req =>
    let shippedQuantity :=
      match findItem order.shippedItems req.productId with
      | some s => s.quantity
      | none => 0
    let remainingQuantity := req.quantity - shippedQuantity
    if 0 < remainingQuantity then
      some (⟨req.productId, remainingQuantity⟩ : Item)
    else none)

/-- `OrderQueueService.updateOrderShipment`: fetch the order (fails with
`OrderNotFound` for an unknown id), merge the shipped quantities into
`shippedItems`, add one to the shipment count, and derive the status:
`FULFILLED` when every requested quantity is covered, otherwise
`PARTIALLY_FULFILLED`. -/
def updateOrderShipment (orders : List OrderEntity) (orderId : Nat)
    (shippedItems : List Item) : Option Err × List OrderEntity :=
  match findOrder orders orderId with
  | none => (some (.orderNotFound orderId), orders)
  | some o =>
    let o' := { o with
      shippedItems := mergeInto o.shippedItems shippedItems
      totalShipments := o.totalShipments + 1 }
    let o'' := { o' with
      status :=
        if isOrderFulfilled o' then OrderStatus.fulfilled
        else OrderStatus.partiallyFulfilled }
    (none, replaceOrder orders o'')

/-! ## Fulfillment orchestrator (`FulfillmentService`) -/

/-- The whole mutable state touched by `FulfillmentService`: inventory,
order table, persisted shipment records and the logical clock used for
`createdAt` stamps. -/
structure FState where
  inv : Inv
  orders : List OrderEntity
  shipments : List ShipmentEntity
  now : Nat
deriving DecidableEq, Repr

/-- `FulfillmentService.MAX_PACKAGE_WEIGHT_G` (1.8 kg). -/
def MAX_PACKAGE_WEIGHT_G : Nat := 1800

/-- `FulfillmentService.getShippableItems`:
`min(remaining quantity, available stock)` per item, dropping items with
nothing shippable. -/
def getShippableItems (inv : Inv) (requestedItems : List Item) : List Item :=
  requestedItems.filterMap (fun item =>
    let availableStock := inv.getAvailableStock item.productId
    let shippableQuantity := min (item.quantity : Int) availableStock
    if 0 < shippableQuantity then
      some (⟨item.productId, shippableQuantity.toNat⟩ : Item)
    else none)

/-- `FulfillmentService.shipPackage`: compute the package mass, throw if
it exceeds the ceiling, reserve the stock (a reserve throw propagates
with whatever partial in-memory decrements it made), insert the shipment
record and update the order. Every failure is rethrown to the caller. -/
def shipPackage (st : FState) (orderId : Nat) (items : List Item) :
    Option Err × FState :=
  if MAX_PACKAGE_WEIGHT_G < st.inv.calculateTotalMass items then
    (some (.shipmentExceedsCeiling (st.inv.calculateTotalMass items) MAX_PACKAGE_WEIGHT_G), st)
  else
    match Inv.reserveStock st.inv items with
    | (some e, inv') => (some e, { st with inv := inv' })
    | (none, inv') =>
      match updateOrderShipment st.orders orderId items with
      | (some e, orders') =>
        (some e,
          { st with
            inv := inv',
            shipments := st.shipments ++
              [(⟨orderId, items, st.inv.calculateTotalMass items⟩ : ShipmentEntity)],
            orders := orders' })
      | (none, orders') =>
        (none,
          { st with
            inv := inv',
            shipments := st.shipments ++
              [(⟨orderId, items, st.inv.calculateTotalMass items⟩ : ShipmentEntity)],
            orders := orders' })

/-- The `for (const shipmentItems of shipments)` loop of
`FulfillmentService.attemptFulfillment`: ship packages one at a time; a
thrown error propagates immediately, so packages after the failing one
are not attempted. -/
def shipLoop (st : FState) (orderId : Nat) : List Package → Option Err × FState
  | [] => (none, st)
  | pkg :: rest =>
    match shipPackage st orderId pkg with
    | (some e, st') => (some e, st')
    | (none, st') => shipLoop st' orderId rest

/-- One slice step of the `for (let i = 0; i < total; i += BATCH_SIZE)`
loop of `FulfillmentService.batchShipPackages`: take a chunk of `n`
packages, recurse on the rest. Every step consumes at least one
package, so the list's length bounds the number of steps; the `fuel`
argument makes the recursion structural without changing the value. -/
def chunkGo (n : Nat) : (fuel : Nat) → List Package → List (List Package)
  | _, [] => []
  | 0, _ :: _ => []
  | fuel + 1, pkg :: rest =>
    (pkg :: rest.take (n - 1)) :: chunkGo n fuel (rest.drop (n - 1))

/-- Split a list into consecutive chunks of `n` (the last chunk may be
shorter). -/
def chunkList (n : Nat) (l : List Package) : List (List Package) :=
  chunkGo n l.length l

/-- One batch iteration of `FulfillmentService.batchShipPackages`:
skip (log only) packages over the weight ceiling, aggregate the
remaining packages' items into `allBatchItems` and their records into
`shipmentData`, then reserve the aggregate, insert all records, and
update the order once with the aggregate. A reserve throw aborts the
whole call before any record of this chunk is inserted. -/
def processChunk (st : FState) (orderId : Nat) (batch : List Package) :
    Option Err × FState :=
  match batch.foldl
    (fun (acc : List Item × List ShipmentEntity) pkg =>
      if MAX_PACKAGE_WEIGHT_G < st.inv.calculateTotalMass pkg then acc
      else (mergeInto acc.1 pkg,
        acc.2 ++ [(⟨orderId, pkg, st.inv.calculateTotalMass pkg⟩ : ShipmentEntity)]))
    ([], []) with
  | (allBatchItems, shipmentData) =>
    match Inv.reserveStock st.inv allBatchItems with
    | (some e, inv') => (some e, { st with inv := inv' })
    | (none, inv') =>
      if allBatchItems.isEmpty then
        (none, { st with inv := inv', shipments := st.shipments ++ shipmentData })
      else
        match updateOrderShipment st.orders orderId allBatchItems with
        | (some e, orders') =>
          (some e,
            { st with
              inv := inv',
              shipments := st.shipments ++ shipmentData,
              orders := orders' })
        | (none, orders') =>
          (none,
            { st with
              inv := inv',
              shipments := st.shipments ++ shipmentData,
              orders := orders' })

/-- The chunk loop of `FulfillmentService.batchShipPackages`; a thrown
error aborts the remaining chunks. -/
def batchGo (st : FState) (orderId : Nat) : List (List Package) → Option Err × FState
  | [] => (none, st)
  | chunk :: rest =>
    match processChunk st orderId chunk with
    | (some e, st') => (some e, st')
    | (none, st') => batchGo st' orderId rest

/-- `FulfillmentService.batchShipPackages`: process the packages in
chunks of `BATCH_SIZE = 50`. -/
def batchShipPackages (st : FState) (orderId : Nat) (allShipments : List Package) :
    Option Err × FState :=
  batchGo st orderId (chunkList 50 allShipments)

/-- `FulfillmentService.attemptFulfillment`: compute the remainder of
the order, intersect with available stock, pack, and ship — in batch
mode when more than 100 packages were produced, otherwise one package at
a time. -/
def attemptFulfillment (st : FState) (order : OrderEntity) : Option Err × FState :=
  let remainingItems := getRemainingItems order
  if remainingItems.isEmpty then (none, st)
  else
    let shippableItems := getShippableItems st.inv remainingItems
    if shippableItems.isEmpty then (none, st)
    else
      let shipments := packShipment st.inv shippableItems MAX_PACKAGE_WEIGHT_G
      if 100 < shipments.length then
        batchShipPackages st order.orderId shipments
      else
        shipLoop st order.orderId shipments

/-- The `for (const order of pendingOrders)` loop of
`FulfillmentService.fulfillPendingOrders`; an error thrown for one order
propagates and aborts the rest of the pass. -/
def fulfillLoop (st : FState) : List OrderEntity → Option Err × FState
  | [] => (none, st)
  | o :: rest =>
    match attemptFulfillment st o with
    | (some e, st') => (some e, st')
    | (none, st') => fulfillLoop st' rest

/-- `FulfillmentService.fulfillPendingOrders`: attempt every pending or
partially fulfilled order in `createdAt` order. -/
def fulfillPendingOrders (st : FState) : Option Err × FState :=
  fulfillLoop st (getPendingOrders st.orders)

/-- `FulfillmentService.processOrder`: enqueue, then attempt immediate
fulfillment of the freshly saved entity. The logical clock advances by
one so that later creations get strictly larger `createdAt` stamps. -/
def processOrder (st : FState) (orderId : Nat) (requested : List Item) :
    Option Err × FState :=
  let (orders', order) := enqueueOrder st.orders st.now orderId requested
  attemptFulfillment { st with orders := orders', now := st.now + 1 } order

/-- `FulfillmentService.processRestock`: apply the restock to inventory,
then re-attempt every pending order, earliest first. -/
def processRestock (st : FState) (restock : List Item) : Option Err × FState :=
  fulfillPendingOrders { st with inv := st.inv.processRestock restock }

/-- `FulfillmentService.initCatalog` lifted to the full state. -/
def initCatalogF (st : FState) (productInfo : List ProductInfo) : Option Err × FState :=
  let (e, inv') := st.inv.initCatalog productInfo
  (e, { st with inv := inv' })

/-- The empty start-of-process state. -/
def initialState : FState :=
  { inv := { catalog := [], isInitialized := false }
    orders := []
    shipments := []
    now := 0 }

/-- States reachable from process start through the public operations
named by the spec: catalog initialization, restock processing, direct
stock reservation and order processing. -/
inductive Reachable : FState → Prop where
  | init : Reachable initialState
  | initCatalog {st : FState} (ps : List ProductInfo) :
      Reachable st → Reachable (initCatalogF st ps).2
  | processRestock {st : FState} (restock : List Item) :
      Reachable st → Reachable (processRestock st restock).2
  | reserveStock {st : FState} (items : List Item) :
      Reachable st →
      Reachable { st with inv := (Inv.reserveStock st.inv items).2 }
  | processOrder {st : FState} (orderId : Nat) (requested : List Item) :
      Reachable st → Reachable (processOrder st orderId requested).2

/-! ## Derived/specification-level helpers used to state and prove the claims -/

/-- The stock the state reports for a product id (`0` when absent), as an
`Int`; this is `getAvailableStock` phrased on a raw catalog. -/
def stockOf (catalog : List ProductEntity) (pid : Nat) : Int :=
  match findProduct catalog pid with
  | none => 0
  | some p => p.quantityInStock

/-- The unit mass the catalog reports for a product id (`0` when absent). -/
def massOf (catalog : List ProductEntity) (pid : Nat) : Nat :=
  match findProduct catalog pid with
  | none => 0
  | some p => p.massG

/-- Apply the stock decrements of an item list unconditionally (the net
effect of a successful reservation). -/
def decAll (catalog : List ProductEntity) (items : List Item) : List ProductEntity :=
  items.foldl (fun c it => adjustStock c it.productId (fun q => q - it.quantity)) catalog

/-- Total quantity an item list requests for one product id. -/
def totalNeed (items : List Item) (pid : Nat) : Nat :=
  ((items.filter (fun it => it.productId == pid)).map Item.quantity).sum

/-- The sum of line quantities weighted per product id (with `w := fun _ => 1`
this is the total quantity of a package, with `w := massOf c` its mass). -/
def lineSum (w : Nat → Nat) (items : List Item) : Nat :=
  (items.map (fun it => w it.productId * it.quantity)).sum

/-- Total quantity across the lines of all packages of a packing. -/
def totalQty (pkgs : List Package) : Nat :=
  (pkgs.map (fun pkg => lineSum (fun _ => 1) pkg)).sum

/-- The order entity after absorbing `added` shipped quantities over `n`
recorded shipments: the net effect of a run of `updateOrderShipment`
calls whose item lists concatenate to `added`. -/
def afterShipments (o : OrderEntity) (added : List Item) (n : Nat) : OrderEntity :=
  let o' := { o with
    shippedItems := mergeInto o.shippedItems added
    totalShipments := o.totalShipments + n }
  { o' with
    status :=
      if isOrderFulfilled o' then OrderStatus.fulfilled
      else OrderStatus.partiallyFulfilled }

/-! ## Concrete scenario states used by counterexamples and witnesses -/

/-- One-product inventory (unit mass 100 g) holding 5 units. -/
def invFiveInStock : Inv :=
  (Inv.initCatalog { catalog := [], isInitialized := false }
    [⟨0, "RBC A Adult", 100⟩]).2.processRestock [⟨0, 5⟩]

/-- Catalog `{id 0, mass 700}` initialized, then restocked with 2 units. -/
def stTwoInStock : FState :=
  (processRestock (initCatalogF initialState [⟨0, "RBC A Adult", 700⟩]).2 [⟨0, 2⟩]).2

/-- `stTwoInStock` after order 1 requested (and received) both units. -/
def stOrderFulfilled : FState := (processOrder stTwoInStock 1 [⟨0, 2⟩]).2

/-- `stOrderFulfilled` after order 1 is re-submitted requesting one unit. -/
def stReenqueued : FState := (processOrder stOrderFulfilled 1 [⟨0, 1⟩]).2

/-- Three-product inventory for the mid-pass reserve-failure scenario:
products 0 and 2 hold one unit each, product 1 holds none. -/
def stMidPass : FState :=
  { inv := (initCatalogF initialState
      [⟨0, "A", 100⟩, ⟨1, "B", 100⟩, ⟨2, "C", 100⟩]).2.inv.processRestock
      [⟨0, 1⟩, ⟨2, 1⟩]
    orders := [{ orderId := 7
                 requestedItems := [⟨0, 1⟩, ⟨1, 1⟩, ⟨2, 1⟩]
                 shippedItems := []
                 status := OrderStatus.pending
                 totalShipments := 0
                 createdAt := 0 }]
    shipments := []
    now := 1 }

/-- The three single-unit packages of the mid-pass scenario; the middle
one cannot reserve (product 1 has no stock), the last one could. -/
def midPassPackages : List Package := [[⟨0, 1⟩], [⟨1, 1⟩], [⟨2, 1⟩]]

/-- One-product state holding 202 units with an open order for all of
them; used to compare batch and one-at-a-time processing of 101
single-unit packages. -/
def stBatchDemo : FState :=
  { inv := (initCatalogF initialState [⟨0, "A", 100⟩]).2.inv.processRestock [⟨0, 202⟩]
    orders := [{ orderId := 7
                 requestedItems := [⟨0, 202⟩]
                 shippedItems := []
                 status := OrderStatus.pending
                 totalShipments := 0
                 createdAt := 0 }]
    shipments := []
    now := 1 }

/-- 101 single-unit packages for order 7 of `stBatchDemo`: enough to put
`attemptFulfillment` into batch mode (`> 100`). -/
def batchDemoPackages : List Package := List.replicate 101 [⟨0, 1⟩]

/-- Two orders (ids 10 then 20) enqueued while the shelf is empty, then a
restock of a single unit: the FIFO scenario of the spec. -/
def stFifo : FState :=
  (processRestock
    (processOrder
      (processOrder (initCatalogF initialState [⟨0, "RBC A Adult", 700⟩]).2
        10 [⟨0, 1⟩]).2
      20 [⟨0, 1⟩]).2
    [⟨0, 1⟩]).2

/-! ## Frame lemmas for the order table -/

theorem findOrder_orderId {orders : List OrderEntity} {oid : Nat} {o : OrderEntity}
    (h : findOrder orders oid = some o) : o.orderId = oid := by
  induction orders with
  | nil => simp [findOrder] at h
  | cons o₀ rest ih =>
    rw [findOrder] at h
    by_cases h₀ : o₀.orderId = oid
    · simp only [h₀, beq_self_eq_true, if_true, Option.some.injEq] at h
      rw [← h]
      exact h₀
    · simp only [beq_iff_eq, h₀, if_false] at h
      exact ih h

theorem findOrder_replaceOrder_self {orders : List OrderEntity} {oid : Nat}
    {o o' : OrderEntity} (h : findOrder orders oid = some o) (h' : o'.orderId = oid) :
    findOrder (replaceOrder orders o') oid = some o' := by
  induction orders with
  | nil => simp [findOrder] at h
  | cons o₀ rest ih =>
    rw [replaceOrder]
    by_cases h₀ : o₀.orderId = o'.orderId
    · simp only [h₀, beq_self_eq_true, if_true]
      rw [findOrder]
      simp [h']
    · simp only [beq_iff_eq, h₀, if_false]
      have hne : ¬o₀.orderId = oid := fun hc => h₀ (hc.trans h'.symm)
      rw [findOrder] at h
      simp only [beq_iff_eq, hne, if_false] at h
      rw [findOrder]
      simp only [beq_iff_eq, hne, if_false]
      exact ih h

theorem findOrder_replaceOrder_ne {orders : List OrderEntity} {oid : Nat}
    {o' : OrderEntity} (h : oid ≠ o'.orderId) :
    findOrder (replaceOrder orders o') oid = findOrder orders oid := by
  induction orders with
  | nil => simp [replaceOrder]
  | cons o₀ rest ih =>
    rw [replaceOrder]
    by_cases h₀ : o₀.orderId = o'.orderId
    · simp only [h₀, beq_self_eq_true, if_true]
      rw [findOrder, findOrder]
      simp only [beq_iff_eq, Ne.symm h, if_false, h₀, Ne.symm h]
    · simp only [beq_iff_eq, h₀, if_false]
      rw [findOrder, findOrder]
      by_cases h₂ : o₀.orderId = oid
      · simp [h₂]
      · simp only [beq_iff_eq, h₂, if_false]
        exact ih

theorem replaceOrder_replaceOrder {orders : List OrderEntity} {o₁ o₂ : OrderEntity}
    (h : o₁.orderId = o₂.orderId) :
    replaceOrder (replaceOrder orders o₁) o₂ = replaceOrder orders o₂ := by
  induction orders with
  | nil => simp [replaceOrder]
  | cons o₀ rest ih =>
    by_cases h₀ : o₀.orderId = o₁.orderId
    · rw [replaceOrder]
      simp only [h₀, beq_self_eq_true, if_true]
      rw [replaceOrder, replaceOrder]
      simp only [h, beq_self_eq_true, if_true, beq_iff_eq, h₀.trans h, if_true]
    · rw [replaceOrder]
      simp only [beq_iff_eq, h₀, if_false]
      rw [replaceOrder, replaceOrder]
      have h₂ : ¬o₀.orderId = o₂.orderId := fun hc => h₀ (hc.trans h.symm)
      simp only [beq_iff_eq, h₂, if_false, ih]

/-! ## C8: re-initialization is refused and changes nothing -/

/-- C8: if `initCatalog` has already succeeded (producing state `inv₁`)
and no reset intervened, a second call with any product list fails with
the already-initialized error and returns `inv₁` itself: the catalog
map, every product's stock and the initialized flag are exactly as the
first call left them. -/
theorem initCatalog_second_call_fails (inv inv₁ : Inv) (ps₁ ps₂ : List ProductInfo)
    (h : inv.initCatalog ps₁ = (none, inv₁)) :
    inv₁.initCatalog ps₂ = (some Err.alreadyInitialized, inv₁) := by
  rw [Inv.initCatalog] at h
  split at h
  · exact absurd (congrArg Prod.fst h) (by simp)
  · have h2 := congrArg Prod.snd h
    simp only at h2
    rw [← h2]
    rfl

/-- Witness for C8 at a concrete catalog. -/
theorem initCatalog_second_call_fails_witness :
    (⟨[⟨0, "RBC A Adult", 700, 0⟩], true⟩ : Inv).initCatalog [⟨1, "Platelets", 200⟩]
      = (some Err.alreadyInitialized, ⟨[⟨0, "RBC A Adult", 700, 0⟩], true⟩) :=
  initCatalog_second_call_fails ⟨[], false⟩ ⟨[⟨0, "RBC A Adult", 700, 0⟩], true⟩
    [⟨0, "RBC A Adult", 700⟩] [⟨1, "Platelets", 200⟩] (by decide)

/-! ## C10: re-enqueueing an existing order id -/

/-- C10: calling `enqueueOrder` for an existing order id replaces only
the requested items and resets the status to pending; the shipped-items
list, the shipment count and the creation timestamp are untouched, the
updated row is what the table then holds for that id, and every other
order's row is unchanged. -/
theorem enqueueOrder_existing_replaces_request_only
    (orders : List OrderEntity) (now oid : Nat) (req : List Item) (o : OrderEntity)
    (h : findOrder orders oid = some o) :
    (enqueueOrder orders now oid req).2.requestedItems = req ∧
    (enqueueOrder orders now oid req).2.status = OrderStatus.pending ∧
    (enqueueOrder orders now oid req).2.shippedItems = o.shippedItems ∧
    (enqueueOrder orders now oid req).2.totalShipments = o.totalShipments ∧
    (enqueueOrder orders now oid req).2.createdAt = o.createdAt ∧
    findOrder (enqueueOrder orders now oid req).1 oid =
      some (enqueueOrder orders now oid req).2 ∧
    ∀ oid', oid' ≠ oid →
      findOrder (enqueueOrder orders now oid req).1 oid' = findOrder orders oid' := by
  have hid : o.orderId = oid := findOrder_orderId h
  rw [enqueueOrder, h]
  refine ⟨rfl, rfl, rfl, rfl, rfl, ?_, ?_⟩
  · exact findOrder_replaceOrder_self h hid
  · intro oid' hne
    exact findOrder_replaceOrder_ne (by simpa [hid] using hne)

/-- Witness for C10: re-enqueueing the fulfilled order of
`stOrderFulfilled` with a new one-unit request. -/
theorem enqueueOrder_existing_replaces_request_only_witness :
    (enqueueOrder stOrderFulfilled.orders stOrderFulfilled.now 1 [⟨0, 1⟩]).2.requestedItems
        = [⟨0, 1⟩] ∧
    (enqueueOrder stOrderFulfilled.orders stOrderFulfilled.now 1 [⟨0, 1⟩]).2.status
        = OrderStatus.pending ∧
    (enqueueOrder stOrderFulfilled.orders stOrderFulfilled.now 1 [⟨0, 1⟩]).2.shippedItems
        = [⟨0, 2⟩] ∧
    (enqueueOrder stOrderFulfilled.orders stOrderFulfilled.now 1 [⟨0, 1⟩]).2.totalShipments
        = 1 ∧
    (enqueueOrder stOrderFulfilled.orders stOrderFulfilled.now 1 [⟨0, 1⟩]).2.createdAt
        = 0 := by
  have h : findOrder stOrderFulfilled.orders 1 =
      some { orderId := 1, requestedItems := [⟨0, 2⟩], shippedItems := [⟨0, 2⟩],
             status := OrderStatus.fulfilled, totalShipments := 1, createdAt := 0 } := by
    decide
  obtain ⟨h1, h2, h3, h4, h5, -, -⟩ :=
    enqueueOrder_existing_replaces_request_only stOrderFulfilled.orders
      stOrderFulfilled.now 1 [⟨0, 1⟩] _ h
  exact ⟨h1, h2, h3, h4, h5⟩

/-! ## C1: `reserveStock` is not all-or-nothing (code bug) -/

/-- C1 (failing evaluation): with 5 units of product 0 in stock,
`reserveStock [{0, 3}, {99, 1}]` throws `ProductNotFound 99` as the spec
says, but the in-memory stock of product 0 — the value every subsequent
`getAvailableStock` reads — has already been decremented to 2 and is
never rolled back, contradicting "leaves the stock of every product
unchanged". The decrement is applied while validating, item by item. -/
theorem reserveStock_failure_mutates_stock :
    invFiveInStock.getAvailableStock 0 = 5 ∧
    (invFiveInStock.reserveStock [⟨0, 3⟩, ⟨99, 1⟩]).1
      = some (Err.productNotFound 99) ∧
    (invFiveInStock.reserveStock [⟨0, 3⟩, ⟨99, 1⟩]).2.getAvailableStock 0 = 2 := by
  decide

/-! ## C2: shipped can exceed requested after a re-enqueue (code bug) -/

/-- C2 (failing evaluation): order 1 requested and received 2 units of
product 0 (state `stOrderFulfilled`), then was re-submitted through the
public `processOrder` requesting a single unit. The re-enqueue replaces
`requestedItems` but keeps `shippedItems`, so the reachable state
`stReenqueued` carries an order with shipped quantity 2 strictly above
requested quantity 1 for product 0. -/
theorem shipped_exceeds_requested_after_reenqueue :
    findOrder stReenqueued.orders 1 =
      some { orderId := 1, requestedItems := [⟨0, 1⟩], shippedItems := [⟨0, 2⟩],
             status := OrderStatus.pending, totalShipments := 1, createdAt := 0 } ∧
    ∃ o, o ∈ stReenqueued.orders ∧ ∃ req, req ∈ o.requestedItems ∧
      ∃ sh, sh ∈ o.shippedItems ∧ sh.productId = req.productId ∧
        req.quantity < sh.quantity := by
  decide

/-! ## C4: a reserve failure aborts the rest of the pass -/

theorem updateOrderShipment_error_orders {orders orders' : List OrderEntity}
    {oid : Nat} {items : List Item} {e : Err}
    (h : updateOrderShipment orders oid items = (some e, orders')) :
    orders' = orders := by
  rw [updateOrderShipment] at h
  split at h
  · exact (congrArg Prod.snd h).symm
  · exact absurd (congrArg Prod.fst h) (by simp)

theorem shipPackage_error_orders {st st₂ : FState} {oid : Nat} {items : List Item}
    {e : Err} (h : shipPackage st oid items = (some e, st₂)) :
    st₂.orders = st.orders := by
  unfold shipPackage at h
  split at h
  · injection h with h1 h2
    rw [← h2]
  · split at h
    · injection h with h1 h2
      rw [← h2]
    · split at h
      · rename_i hupd
        injection h with h1 h2
        rw [← h2]
        exact updateOrderShipment_error_orders hupd
      · injection h with h1 h2
        exact absurd h1 (by simp)

/-- C4 (counterexample): a pass over three single-unit packages in which
the middle package cannot reserve (product 1 has no stock) while the
last package could (product 2 has one unit). The loop aborts at the
failing package: only the first package's shipment is committed, the
stock of product 2 is still on the shelf, and shipping the third package
from the resulting state would have succeeded — so the claim that every
later package in the pass is still attempted is false. -/
theorem reserve_failure_aborts_pass_counterexample :
    (shipLoop stMidPass 7 midPassPackages).1 = some (Err.insufficientStock 1 0 1) ∧
    (shipLoop stMidPass 7 midPassPackages).2.shipments
      = [⟨7, [⟨0, 1⟩], 100⟩] ∧
    (shipLoop stMidPass 7 midPassPackages).2.inv.getAvailableStock 2 = 1 ∧
    (shipPackage (shipLoop stMidPass 7 midPassPackages).2 7 [⟨2, 1⟩]).1 = none := by
  decide

/-- C4 (amended): during a fulfillment pass over the packages produced
for one order, a failure on one package (in particular a `Reserve`
failure) aborts that package and the remainder of the pass: every
package committed earlier in the pass remains committed (the final state
is exactly the failing call's post-state over the state the committed
prefix produced), the error propagates, no later package is attempted,
and the failing call leaves the order table — hence the order's
remainder — unchanged. -/
theorem shipLoop_aborts_at_failing_package (st st₁ st₂ : FState) (oid : Nat)
    (committed : List Package) (bad : Package) (rest : List Package) (e : Err)
    (h₁ : shipLoop st oid committed = (none, st₁))
    (h₂ : shipPackage st₁ oid bad = (some e, st₂)) :
    shipLoop st oid (committed ++ bad :: rest) = (some e, st₂) ∧
    st₂.orders = st₁.orders := by
  refine ⟨?_, shipPackage_error_orders h₂⟩
  induction committed generalizing st with
  | nil =>
    rw [shipLoop] at h₁
    have hst : st = st₁ := congrArg Prod.snd h₁
    rw [List.nil_append, shipLoop, hst, h₂]
  | cons c cs ih =>
    rw [shipLoop] at h₁
    rw [List.cons_append, shipLoop]
    match hc : shipPackage st oid c with
    | (some e', s') =>
      rw [hc] at h₁
      exact absurd (congrArg Prod.fst h₁) (by simp)
    | (none, s') =>
      rw [hc] at h₁
      exact ih s' h₁

/-- Witness for C4's amended theorem on the mid-pass scenario. -/
theorem shipLoop_aborts_at_failing_package_witness :
    shipLoop stMidPass 7 ([[⟨0, 1⟩]] ++ [⟨1, 1⟩] :: [[⟨2, 1⟩]])
      = (some (Err.insufficientStock 1 0 1),
        (shipPackage (shipLoop stMidPass 7 [[⟨0, 1⟩]]).2 7 [⟨1, 1⟩]).2) ∧
    (shipPackage (shipLoop stMidPass 7 [[⟨0, 1⟩]]).2 7 [⟨1, 1⟩]).2.orders
      = (shipLoop stMidPass 7 [[⟨0, 1⟩]]).2.orders :=
  shipLoop_aborts_at_failing_package stMidPass
    (shipLoop stMidPass 7 [[⟨0, 1⟩]]).2
    (shipPackage (shipLoop stMidPass 7 [[⟨0, 1⟩]]).2 7 [⟨1, 1⟩]).2
    7 [[⟨0, 1⟩]] [⟨1, 1⟩] [[⟨2, 1⟩]] (Err.insufficientStock 1 0 1)
    (by decide) (by decide)

/-! ## C9: stock never goes negative; unknown products read as 0 -/

/-- Every catalog entry's stock is non-negative. -/
def CatalogNonneg (c : List ProductEntity) : Prop :=
  ∀ p ∈ c, 0 ≤ p.quantityInStock

theorem findProduct_mem {c : List ProductEntity} {pid : Nat} {p : ProductEntity}
    (h : findProduct c pid = some p) : p ∈ c := by
  induction c with
  | nil => simp [findProduct] at h
  | cons p₀ rest ih =>
    rw [findProduct] at h
    split at h
    · injection h with h
      exact h ▸ List.mem_cons_self _ _
    · exact List.mem_cons_of_mem _ (ih h)

theorem catalogNonneg_adjustStock_add {c : List ProductEntity} (pid q : Nat)
    (h : CatalogNonneg c) :
    CatalogNonneg (adjustStock c pid (fun x => x + (q : Int))) := by
  induction c with
  | nil => intro p hp; simp [adjustStock] at hp
  | cons p₀ rest ih =>
    intro p hp
    rw [adjustStock] at hp
    split at hp
    · rcases List.mem_cons.mp hp with h1 | h1
      · subst h1
        have h0 := h p₀ (List.mem_cons_self p₀ rest)
        simp only
        exact add_nonneg h0 (Int.natCast_nonneg q)
      · exact h p (List.mem_cons_of_mem _ h1)
    · rcases List.mem_cons.mp hp with h1 | h1
      · subst h1; exact h p (List.mem_cons_self p rest)
      · exact ih (fun p' hp' => h p' (List.mem_cons_of_mem _ hp')) p h1

theorem catalogNonneg_adjustStock_sub {c : List ProductEntity} (pid q : Nat)
    (h : CatalogNonneg c)
    (hq : ∀ p, findProduct c pid = some p → (q : Int) ≤ p.quantityInStock) :
    CatalogNonneg (adjustStock c pid (fun x => x - (q : Int))) := by
  induction c with
  | nil => intro p hp; simp [adjustStock] at hp
  | cons p₀ rest ih =>
    intro p hp
    rw [adjustStock] at hp
    by_cases h₀ : p₀.productId = pid
    · simp only [h₀, beq_self_eq_true, if_true] at hp
      rcases List.mem_cons.mp hp with h1 | h1
      · subst h1
        have hle := hq p₀ (by rw [findProduct]; simp [h₀])
        simp only
        omega
      · exact h p (List.mem_cons_of_mem _ h1)
    · simp only [beq_iff_eq, h₀, if_false] at hp
      rcases List.mem_cons.mp hp with h1 | h1
      · subst h1; exact h p (List.mem_cons_self p rest)
      · refine ih (fun p' hp' => h p' (List.mem_cons_of_mem _ hp')) ?_ p h1
        intro p' hp'
        refine hq p' ?_
        rw [findProduct]
        simp only [beq_iff_eq, h₀, if_false]
        exact hp'

theorem catalogNonneg_reserveGo {c : List ProductEntity} (items : List Item)
    (h : CatalogNonneg c) : CatalogNonneg (Inv.reserveGo c items).2 := by
  induction items generalizing c with
  | nil => exact h
  | cons it rest ih =>
    rw [Inv.reserveGo]
    match hf : findProduct c it.productId with
    | none => exact h
    | some p =>
      by_cases hlt : p.quantityInStock < (it.quantity : Int)
      · simp only [hlt, if_true]
        exact h
      · simp only [hlt, if_false]
        refine ih (catalogNonneg_adjustStock_sub it.productId it.quantity h ?_)
        intro p' hp'
        rw [hf] at hp'
        injection hp' with hp'
        subst hp'
        omega

theorem reserveStock_catalog (inv : Inv) (items : List Item) :
    (Inv.reserveStock inv items).2.catalog = (Inv.reserveGo inv.catalog items).2 := by
  rw [Inv.reserveStock]

theorem catalogNonneg_reserveStock {inv : Inv} (items : List Item)
    (h : CatalogNonneg inv.catalog) :
    CatalogNonneg (Inv.reserveStock inv items).2.catalog := by
  rw [reserveStock_catalog]
  exact catalogNonneg_reserveGo items h

theorem catalogNonneg_restock_foldl (restock : List Item) :
    ∀ c : List ProductEntity, CatalogNonneg c →
    CatalogNonneg (restock.foldl (fun c item =>
      match findProduct c item.productId with
      | none => c
      | some _ => adjustStock c item.productId (fun q => q + item.quantity)) c) := by
  induction restock with
  | nil => intro c h; exact h
  | cons it rest ih =>
    intro c h
    rw [List.foldl_cons]
    match hf : findProduct c it.productId with
    | none => exact ih c h
    | some p =>
      exact ih _ (catalogNonneg_adjustStock_add it.productId it.quantity h)

theorem catalogNonneg_processRestock {inv : Inv} (restock : List Item)
    (h : CatalogNonneg inv.catalog) :
    CatalogNonneg (inv.processRestock restock).catalog :=
  catalogNonneg_restock_foldl restock inv.catalog h

theorem catalogNonneg_setProduct {c : List ProductEntity} {p : ProductEntity}
    (h : CatalogNonneg c) (hp : 0 ≤ p.quantityInStock) :
    CatalogNonneg (setProduct c p) := by
  induction c with
  | nil =>
    intro p' hp'
    rw [setProduct] at hp'
    rcases List.mem_cons.mp hp' with h1 | h1
    · subst h1; exact hp
    · simp at h1
  | cons p₀ rest ih =>
    intro p' hp'
    rw [setProduct] at hp'
    split at hp'
    · rcases List.mem_cons.mp hp' with h1 | h1
      · subst h1; exact hp
      · exact h p' (List.mem_cons_of_mem _ h1)
    · rcases List.mem_cons.mp hp' with h1 | h1
      · subst h1; exact h p' (List.mem_cons_self p' rest)
      · exact ih (fun x hx => h x (List.mem_cons_of_mem _ hx)) p' h1

theorem catalogNonneg_initCatalog {inv : Inv} (ps : List ProductInfo)
    (h : CatalogNonneg inv.catalog) :
    CatalogNonneg (inv.initCatalog ps).2.catalog := by
  rw [Inv.initCatalog]
  split
  · exact h
  · simp only
    have hgen : ∀ (l : List ProductInfo) (c : List ProductEntity), CatalogNonneg c →
        CatalogNonneg (l.foldl (fun c info => setProduct c
          { productId := info.product_id
            productName := info.product_name
            massG := info.mass_g
            quantityInStock := 0 }) c) := by
      intro l
      induction l with
      | nil => intro c hc; exact hc
      | cons i rest ih =>
        intro c hc
        rw [List.foldl_cons]
        exact ih _ (catalogNonneg_setProduct hc (by simp))
    exact hgen ps [] (by intro p hp; simp at hp)

theorem shipPackage_nonneg {st : FState} (oid : Nat) (items : List Item)
    (h : CatalogNonneg st.inv.catalog) :
    CatalogNonneg (shipPackage st oid items).2.inv.catalog := by
  unfold shipPackage
  split
  · exact h
  · split
    · rename_i e inv' heq
      have : (Inv.reserveStock st.inv items).2.catalog = inv'.catalog := by rw [heq]
      exact this ▸ catalogNonneg_reserveStock items h
    · rename_i inv' heq
      have hc : (Inv.reserveStock st.inv items).2.catalog = inv'.catalog := by rw [heq]
      split
      · exact hc ▸ catalogNonneg_reserveStock items h
      · exact hc ▸ catalogNonneg_reserveStock items h

theorem shipLoop_nonneg {st : FState} (oid : Nat) (pkgs : List Package)
    (h : CatalogNonneg st.inv.catalog) :
    CatalogNonneg (shipLoop st oid pkgs).2.inv.catalog := by
  induction pkgs generalizing st with
  | nil => exact h
  | cons pkg rest ih =>
    rw [shipLoop]
    match hs : shipPackage st oid pkg with
    | (some e, st') =>
      have : (shipPackage st oid pkg).2.inv.catalog = st'.inv.catalog := by rw [hs]
      exact this ▸ shipPackage_nonneg oid pkg h
    | (none, st') =>
      have hkeep : (shipPackage st oid pkg).2.inv.catalog = st'.inv.catalog := by rw [hs]
      exact ih (hkeep ▸ shipPackage_nonneg oid pkg h)

theorem processChunk_nonneg {st : FState} (oid : Nat) (batch : List Package)
    (h : CatalogNonneg st.inv.catalog) :
    CatalogNonneg (processChunk st oid batch).2.inv.catalog := by
  unfold processChunk
  split
  rename_i allBatchItems shipmentData heq
  split
  · rename_i e inv' hres
    have : (Inv.reserveStock st.inv allBatchItems).2.catalog = inv'.catalog := by rw [hres]
    exact this ▸ catalogNonneg_reserveStock allBatchItems h
  · rename_i inv' hres
    have hc : (Inv.reserveStock st.inv allBatchItems).2.catalog = inv'.catalog := by
      rw [hres]
    split
    · exact hc ▸ catalogNonneg_reserveStock allBatchItems h
    · split
      · exact hc ▸ catalogNonneg_reserveStock allBatchItems h
      · exact hc ▸ catalogNonneg_reserveStock allBatchItems h

theorem batchGo_nonneg {st : FState} (oid : Nat) (chunks : List (List Package))
    (h : CatalogNonneg st.inv.catalog) :
    CatalogNonneg (batchGo st oid chunks).2.inv.catalog := by
  induction chunks generalizing st with
  | nil => exact h
  | cons chunk rest ih =>
    rw [batchGo]
    match hc : processChunk st oid chunk with
    | (some e, st') =>
      have : (processChunk st oid chunk).2.inv.catalog = st'.inv.catalog := by rw [hc]
      exact this ▸ processChunk_nonneg oid chunk h
    | (none, st') =>
      have hkeep : (processChunk st oid chunk).2.inv.catalog = st'.inv.catalog := by rw [hc]
      exact ih (hkeep ▸ processChunk_nonneg oid chunk h)

theorem attemptFulfillment_nonneg {st : FState} (o : OrderEntity)
    (h : CatalogNonneg st.inv.catalog) :
    CatalogNonneg (attemptFulfillment st o).2.inv.catalog := by
  rw [attemptFulfillment]
  simp only
  split
  · exact h
  · split
    · exact h
    · split
      · exact batchGo_nonneg o.orderId _ h
      · exact shipLoop_nonneg o.orderId _ h

theorem fulfillLoop_nonneg {st : FState} (pending : List OrderEntity)
    (h : CatalogNonneg st.inv.catalog) :
    CatalogNonneg (fulfillLoop st pending).2.inv.catalog := by
  induction pending generalizing st with
  | nil => exact h
  | cons o rest ih =>
    rw [fulfillLoop]
    match ha : attemptFulfillment st o with
    | (some e, st') =>
      have : (attemptFulfillment st o).2.inv.catalog = st'.inv.catalog := by rw [ha]
      exact this ▸ attemptFulfillment_nonneg o h
    | (none, st') =>
      have hkeep : (attemptFulfillment st o).2.inv.catalog = st'.inv.catalog := by rw [ha]
      exact ih (hkeep ▸ attemptFulfillment_nonneg o h)

/-- C9: in every state reachable through the public operations
(`initCatalog`, `processRestock`, `reserveStock`, order processing),
every product's quantity in stock is non-negative; consequently
`getAvailableStock` never returns a negative value, and it returns `0`
(rather than failing) for a product id that is not in the catalog. -/
theorem stock_nonneg_of_reachable (st : FState) (h : Reachable st) :
    (∀ p ∈ st.inv.catalog, 0 ≤ p.quantityInStock) ∧
    (∀ pid, 0 ≤ st.inv.getAvailableStock pid) ∧
    (∀ pid, findProduct st.inv.catalog pid = none →
      st.inv.getAvailableStock pid = 0) := by
  have hmain : CatalogNonneg st.inv.catalog := by
    induction h with
    | init => intro p hp; simp [initialState] at hp
    | @initCatalog st ps h ih =>
      have heq : (initCatalogF st ps).2.inv = (st.inv.initCatalog ps).2 := by
        rw [initCatalogF]
      rw [heq]
      exact catalogNonneg_initCatalog ps ih
    | @processRestock st restock h ih =>
      rw [processRestock, fulfillPendingOrders]
      exact fulfillLoop_nonneg _ (catalogNonneg_processRestock restock ih)
    | @reserveStock st items h ih => exact catalogNonneg_reserveStock items ih
    | @processOrder st orderId requested h ih =>
      rw [processOrder]
      rcases he : enqueueOrder st.orders st.now orderId requested with ⟨orders', o⟩
      exact attemptFulfillment_nonneg o ih
  refine ⟨hmain, ?_, ?_⟩
  · intro pid
    rw [Inv.getAvailableStock]
    match hf : findProduct st.inv.catalog pid with
    | none => simp
    | some p => exact hmain p (findProduct_mem hf)
  · intro pid hn
    rw [Inv.getAvailableStock, hn]

/-- Witness for C9 at the concrete reachable state `stTwoInStock`
(catalog initialized, then restocked with two units). -/
theorem stock_nonneg_of_reachable_witness :
    (∀ p ∈ stTwoInStock.inv.catalog, 0 ≤ p.quantityInStock) ∧
    (∀ pid, 0 ≤ stTwoInStock.inv.getAvailableStock pid) ∧
    (∀ pid, findProduct stTwoInStock.inv.catalog pid = none →
      stTwoInStock.inv.getAvailableStock pid = 0) :=
  stock_nonneg_of_reachable stTwoInStock
    (Reachable.processRestock [⟨0, 2⟩]
      (Reachable.initCatalog [⟨0, "RBC A Adult", 700⟩] Reachable.init))

/-! ## Packing lemmas shared by C5 and C6 -/

theorem calculateTotalMass_foldl (inv : Inv) (items : List Item) (a : Nat) :
    items.foldl
      (fun total item =>
        match findProduct inv.catalog item.productId with
        | some p => total + p.massG * item.quantity
        | none => total) a
    = a + lineSum (massOf inv.catalog) items := by
  induction items generalizing a with
  | nil => simp [lineSum]
  | cons it rest ih =>
    rw [List.foldl_cons]
    match hf : findProduct inv.catalog it.productId with
    | none =>
      rw [ih]
      simp [lineSum, massOf, hf]
    | some p =>
      rw [ih]
      simp only [lineSum, massOf, hf, List.map_cons, List.sum_cons]
      ring

theorem calculateTotalMass_eq (inv : Inv) (items : List Item) :
    inv.calculateTotalMass items = lineSum (massOf inv.catalog) items := by
  rw [Inv.calculateTotalMass, calculateTotalMass_foldl]
  omega

theorem lineSum_mergeItem (w : Nat → Nat) (s : List Item) (it : Item) :
    lineSum w (mergeItem s it) = lineSum w s + w it.productId * it.quantity := by
  induction s with
  | nil => simp [mergeItem, lineSum]
  | cons e rest ih =>
    rw [mergeItem]
    by_cases h₀ : e.productId = it.productId
    · simp only [h₀, beq_self_eq_true, if_true]
      simp only [lineSum, List.map_cons, List.sum_cons, h₀]
      ring
    · simp only [beq_iff_eq, h₀, if_false]
      simp only [lineSum, List.map_cons, List.sum_cons] at ih ⊢
      omega

theorem lineSum_append (w : Nat → Nat) (xs ys : List Item) :
    lineSum w (xs ++ ys) = lineSum w xs + lineSum w ys := by
  simp [lineSum]

theorem calculateTotalMass_mergeItem (inv : Inv) (s : List Item) (it : Item) :
    inv.calculateTotalMass (mergeItem s it)
      = inv.calculateTotalMass s + massOf inv.catalog it.productId * it.quantity := by
  rw [calculateTotalMass_eq, calculateTotalMass_eq, lineSum_mergeItem]

theorem tryAddFirstFit_pos {inv : Inv} {maxWeightG pid unitWeight remaining : Nat}
    {shipments shipments' : List Package} {k : Nat}
    (h : tryAddFirstFit inv maxWeightG pid unitWeight remaining shipments =
      some (shipments', k)) : 0 < k ∧ k ≤ remaining := by
  induction shipments generalizing shipments' k with
  | nil => simp [tryAddFirstFit] at h
  | cons s rest ih =>
    rw [tryAddFirstFit] at h
    by_cases hpos :
        0 < min ((maxWeightG - inv.calculateTotalMass s) / unitWeight) remaining
    · simp only [hpos, if_true] at h
      injection h with h
      injection h with h1 h2
      exact h2 ▸ ⟨hpos, min_le_right _ _⟩
    · simp only [hpos, if_false] at h
      match hrec : tryAddFirstFit inv maxWeightG pid unitWeight remaining rest with
      | some (rest', k') =>
        rw [hrec] at h
        injection h with h
        injection h with h1 h2
        exact h2 ▸ ih hrec
      | none =>
        rw [hrec] at h
        exact absurd h (by simp)

theorem tryAddFirstFit_mass_le {inv : Inv} {maxWeightG pid unitWeight remaining : Nat}
    {shipments shipments' : List Package} {k : Nat}
    (hw : massOf inv.catalog pid = unitWeight)
    (hall : ∀ pkg ∈ shipments, inv.calculateTotalMass pkg ≤ maxWeightG)
    (h : tryAddFirstFit inv maxWeightG pid unitWeight remaining shipments =
      some (shipments', k)) :
    ∀ pkg ∈ shipments', inv.calculateTotalMass pkg ≤ maxWeightG := by
  induction shipments generalizing shipments' k with
  | nil => simp [tryAddFirstFit] at h
  | cons s rest ih =>
    rw [tryAddFirstFit] at h
    by_cases hpos :
        0 < min ((maxWeightG - inv.calculateTotalMass s) / unitWeight) remaining
    · simp only [hpos, if_true] at h
      injection h with h
      injection h with h1 h2
      intro pkg hpkg
      rw [← h1] at hpkg
      rcases List.mem_cons.mp hpkg with hh | hh
      · subst hh
        rw [calculateTotalMass_mergeItem, hw]
        have hs : inv.calculateTotalMass s ≤ maxWeightG := hall s (List.mem_cons_self s rest)
        have hk : min ((maxWeightG - inv.calculateTotalMass s) / unitWeight) remaining
            ≤ (maxWeightG - inv.calculateTotalMass s) / unitWeight := min_le_left _ _
        have hmul : unitWeight *
            min ((maxWeightG - inv.calculateTotalMass s) / unitWeight) remaining
            ≤ maxWeightG - inv.calculateTotalMass s := by
          calc unitWeight * min ((maxWeightG - inv.calculateTotalMass s) / unitWeight) remaining
              = min ((maxWeightG - inv.calculateTotalMass s) / unitWeight) remaining * unitWeight := by
                ring
            _ ≤ (maxWeightG - inv.calculateTotalMass s) / unitWeight * unitWeight :=
                Nat.mul_le_mul_right unitWeight hk
            _ ≤ maxWeightG - inv.calculateTotalMass s := Nat.div_mul_le_self _ _
        dsimp only
        omega
      · exact hall pkg (List.mem_cons_of_mem _ hh)
    · simp only [hpos, if_false] at h
      match hrec : tryAddFirstFit inv maxWeightG pid unitWeight remaining rest with
      | some (rest', k') =>
        rw [hrec] at h
        injection h with h
        injection h with h1 h2
        intro pkg hpkg
        rw [← h1] at hpkg
        rcases List.mem_cons.mp hpkg with hh | hh
        · subst hh
          exact hall pkg (List.mem_cons_self pkg rest)
        · exact ih (fun x hx => hall x (List.mem_cons_of_mem _ hx)) hrec pkg hh
      | none =>
        rw [hrec] at h
        exact absurd h (by simp)

theorem packItemGo_mass_le (inv : Inv) (maxWeightG pid unitWeight : Nat)
    (hw : massOf inv.catalog pid = unitWeight) :
    ∀ (fuel remaining : Nat) (shipments : List Package),
    (∀ pkg ∈ shipments, inv.calculateTotalMass pkg ≤ maxWeightG) →
    ∀ pkg ∈ packItemGo inv maxWeightG pid unitWeight fuel remaining shipments,
      inv.calculateTotalMass pkg ≤ maxWeightG := by
  intro fuel
  induction fuel with
  | zero => intro remaining shipments hall; exact hall
  | succ fuel ih =>
    intro remaining shipments hall
    rw [packItemGo]
    split
    · exact hall
    · split
      · exact hall
      · match hfit : tryAddFirstFit inv maxWeightG pid unitWeight remaining shipments with
        | some (shipments', k) =>
          exact ih _ _ (tryAddFirstFit_mass_le hw hall hfit)
        | none =>
          refine ih _ _ ?_
          intro pkg hpkg
          rcases List.mem_append.mp hpkg with hh | hh
          · exact hall pkg hh
          · rcases List.mem_singleton.mp hh with rfl
            rw [calculateTotalMass_eq]
            simp only [lineSum, List.map_cons, List.map_nil, List.sum_cons,
              List.sum_nil, Nat.add_zero, hw]
            calc unitWeight * min (maxWeightG / unitWeight) remaining
                ≤ unitWeight * (maxWeightG / unitWeight) :=
                  Nat.mul_le_mul_left unitWeight (min_le_left _ _)
              _ = maxWeightG / unitWeight * unitWeight := by ring
              _ ≤ maxWeightG := Nat.div_mul_le_self _ _

/-- C5: every package produced by the greedy first-fit strategy has
total mass (as the inventory computes it: sum of unit mass × quantity
over its lines) at most the ceiling, for every input item list, every
positive ceiling and every catalog whose unit masses are positive (the
data model's constraint on `massG`). -/
theorem packShipment_mass_le (inv : Inv) (items : List Item) (maxWeightG : Nat)
    (hW : 0 < maxWeightG) (hmass : ∀ p ∈ inv.catalog, 0 < p.massG) :
    ∀ pkg ∈ packShipment inv items maxWeightG,
      inv.calculateTotalMass pkg ≤ maxWeightG := by
  rw [packShipment]
  have hfold : ∀ (l : List WItem) (s : List Package),
      (∀ wit ∈ l, massOf inv.catalog wit.productId = wit.unitWeight) →
      (∀ pkg ∈ s, inv.calculateTotalMass pkg ≤ maxWeightG) →
      ∀ pkg ∈ l.foldl
        (fun shipments it =>
          packItem inv maxWeightG it.productId it.unitWeight it.quantity shipments) s,
        inv.calculateTotalMass pkg ≤ maxWeightG := by
    intro l
    induction l with
    | nil => intro s hl hs; exact hs
    | cons wit rest ih =>
      intro s hl hs
      rw [List.foldl_cons]
      refine ih _ (fun x hx => hl x (List.mem_cons_of_mem _ hx)) ?_
      exact packItemGo_mass_le inv maxWeightG wit.productId wit.unitWeight
        (hl wit (List.mem_cons_self wit rest)) _ _ s hs
  refine hfold _ [] ?_ (by intro pkg hpkg; simp at hpkg)
  intro wit hwit
  rw [List.mem_insertionSort] at hwit
  rcases List.mem_filterMap.mp hwit with ⟨it, hit, hf⟩
  match hg : inv.getProduct it.productId with
  | none => rw [hg] at hf; simp at hf
  | some p =>
    rw [hg] at hf
    by_cases hqpos : 0 < it.quantity
    · simp only [hqpos, if_true] at hf
      injection hf with hf
      rw [← hf]
      simp only [massOf]
      rw [Inv.getProduct] at hg
      rw [hg]
    · simp only [hqpos, if_false] at hf
      exact absurd hf (by simp)

/-- Witness for C5 at a concrete catalog and item list: the first
package the greedy packer produces (18 units of 100 g) respects the
1800 g ceiling. -/
theorem packShipment_mass_le_witness :
    stMidPass.inv.calculateTotalMass [⟨0, 18⟩] ≤ 1800 :=
  packShipment_mass_le stMidPass.inv [⟨0, 30⟩, ⟨2, 7⟩] 1800 (by decide) (by decide)
    [⟨0, 18⟩] (by decide)

/-! ## C6: the greedy strategy drops no unit when everything fits -/

theorem totalQty_append_single (pkgs : List Package) (pkg : Package) :
    totalQty (pkgs ++ [pkg]) = totalQty pkgs + lineSum (fun _ => 1) pkg := by
  simp [totalQty]

theorem tryAddFirstFit_qty {inv : Inv} {maxWeightG pid unitWeight remaining : Nat}
    {shipments shipments' : List Package} {k : Nat}
    (h : tryAddFirstFit inv maxWeightG pid unitWeight remaining shipments =
      some (shipments', k)) :
    totalQty shipments' = totalQty shipments + k := by
  induction shipments generalizing shipments' k with
  | nil => simp [tryAddFirstFit] at h
  | cons s rest ih =>
    rw [tryAddFirstFit] at h
    by_cases hpos :
        0 < min ((maxWeightG - inv.calculateTotalMass s) / unitWeight) remaining
    · simp only [hpos, if_true] at h
      injection h with h
      injection h with h1 h2
      rw [← h1, ← h2]
      simp only [totalQty, List.map_cons, List.sum_cons, lineSum_mergeItem]
      omega
    · simp only [hpos, if_false] at h
      match hrec : tryAddFirstFit inv maxWeightG pid unitWeight remaining rest with
      | some (rest', k') =>
        rw [hrec] at h
        injection h with h
        injection h with h1 h2
        have hr := ih hrec
        rw [← h1, ← h2]
        simp only [totalQty, List.map_cons, List.sum_cons] at hr ⊢
        omega
      | none =>
        rw [hrec] at h
        exact absurd h (by simp)

theorem packItemGo_qty (inv : Inv) (maxWeightG pid unitWeight : Nat)
    (hdiv : 0 < maxWeightG / unitWeight) :
    ∀ (fuel remaining : Nat) (shipments : List Package), remaining ≤ fuel →
    totalQty (packItemGo inv maxWeightG pid unitWeight fuel remaining shipments)
      = totalQty shipments + remaining := by
  intro fuel
  induction fuel with
  | zero =>
    intro remaining shipments hle
    have : remaining = 0 := Nat.le_zero.mp hle
    subst this
    rfl
  | succ fuel ih =>
    intro remaining shipments hle
    rw [packItemGo]
    split
    · rename_i hr
      subst hr
      rfl
    · split
      · rename_i hr hmax
        exact absurd hmax (by omega)
      · rename_i hr hmax
        match hfit : tryAddFirstFit inv maxWeightG pid unitWeight remaining shipments with
        | some (shipments', k) =>
          have hpos := tryAddFirstFit_pos hfit
          rw [ih (remaining - k) shipments' (by omega), tryAddFirstFit_qty hfit]
          omega
        | none =>
          have hminpos : 0 < min (maxWeightG / unitWeight) remaining := by
            have : 0 < remaining := Nat.pos_of_ne_zero hr
            exact lt_min hdiv this
          rw [ih _ _ (by omega), totalQty_append_single]
          simp only [lineSum, List.map_cons, List.map_nil, List.sum_cons, List.sum_nil]
          omega

/-- C6: if every input item has positive quantity and names a catalog
product whose (positive) unit mass is at most the ceiling, the greedy
first-fit strategy packs every requested unit: the sum of quantities
over all lines of all output packages equals the sum of the input
quantities. (The packing functions are total Lean functions, so
termination is by construction.) -/
theorem packShipment_conserves_quantity (inv : Inv) (items : List Item)
    (maxWeightG : Nat)
    (hq : ∀ it ∈ items, 0 < it.quantity)
    (hk : ∀ it ∈ items, ∃ p, inv.getProduct it.productId = some p ∧
      0 < p.massG ∧ p.massG ≤ maxWeightG) :
    totalQty (packShipment inv items maxWeightG) = (items.map Item.quantity).sum := by
  rw [packShipment]
  have hfold : ∀ (l : List WItem) (s : List Package),
      (∀ wit ∈ l, 0 < maxWeightG / wit.unitWeight) →
      totalQty (l.foldl
        (fun shipments it =>
          packItem inv maxWeightG it.productId it.unitWeight it.quantity shipments) s)
        = totalQty s + (l.map WItem.quantity).sum := by
    intro l
    induction l with
    | nil => intro s hd; simp
    | cons wit rest ih =>
      intro s hd
      rw [List.foldl_cons]
      have hstep := packItemGo_qty inv maxWeightG wit.productId wit.unitWeight
        (hd wit (List.mem_cons_self wit rest)) wit.quantity wit.quantity s (le_refl _)
      rw [ih _ (fun x hx => hd x (List.mem_cons_of_mem _ hx))]
      rw [show packItem inv maxWeightG wit.productId wit.unitWeight wit.quantity s
        = packItemGo inv maxWeightG wit.productId wit.unitWeight wit.quantity
            wit.quantity s from rfl]
      rw [hstep]
      simp only [List.map_cons, List.sum_cons]
      omega
  have hdiv : ∀ wit ∈ (items.filterMap (fun item =>
      match inv.getProduct item.productId with
      | some p =>
        if 0 < item.quantity then
          some (⟨item.productId, item.quantity, p.massG⟩ : WItem)
        else none
      | none => none)), 0 < maxWeightG / wit.unitWeight := by
    intro wit hwit
    rcases List.mem_filterMap.mp hwit with ⟨it, hit, hf⟩
    rcases hk it hit with ⟨p, hg, hmp, hml⟩
    rw [hg] at hf
    simp only [hq it hit, if_true] at hf
    injection hf with hf
    rw [← hf]
    exact Nat.div_pos hml hmp
  have hqsum : ∀ (l : List Item), (∀ it ∈ l, 0 < it.quantity) →
      (∀ it ∈ l, ∃ p, inv.getProduct it.productId = some p) →
      ((l.filterMap (fun item =>
        match inv.getProduct item.productId with
        | some p =>
          if 0 < item.quantity then
            some (⟨item.productId, item.quantity, p.massG⟩ : WItem)
          else none
        | none => none)).map WItem.quantity).sum = (l.map Item.quantity).sum := by
    intro l
    induction l with
    | nil => simp
    | cons it rest ih =>
      intro hq' hk'
      rcases hk' it (List.mem_cons_self it rest) with ⟨p, hg⟩
      rw [List.filterMap_cons, hg]
      simp only [hq' it (List.mem_cons_self it rest), if_true]
      simp only [List.map_cons, List.sum_cons]
      rw [ih (fun x hx => hq' x (List.mem_cons_of_mem _ hx))
        (fun x hx => hk' x (List.mem_cons_of_mem _ hx))]
  rw [hfold _ [] (fun wit hwit => hdiv wit ((List.mem_insertionSort _).mp hwit))]
  have hperm : ((((items.filterMap (fun item =>
      match inv.getProduct item.productId with
      | some p =>
        if 0 < item.quantity then
          some (⟨item.productId, item.quantity, p.massG⟩ : WItem)
        else none
      | none => none))).insertionSort
        (fun a b => b.unitWeight ≤ a.unitWeight)).map WItem.quantity).sum
      = (((items.filterMap (fun item =>
      match inv.getProduct item.productId with
      | some p =>
        if 0 < item.quantity then
          some (⟨item.productId, item.quantity, p.massG⟩ : WItem)
        else none
      | none => none))).map WItem.quantity).sum :=
    ((List.perm_insertionSort _ _).map WItem.quantity).sum_eq
  rw [hperm, hqsum items hq (fun it hit => (hk it hit).elim (fun p hp => ⟨p, hp.1⟩))]
  simp [totalQty]

/-- Witness for C6: a 700 g product under the 1800 g ceiling, 5 units
requested, all packed. -/
theorem packShipment_conserves_quantity_witness :
    totalQty (packShipment stTwoInStock.inv [⟨0, 5⟩] 1800)
      = ([(⟨0, 5⟩ : Item)].map Item.quantity).sum :=
  packShipment_conserves_quantity stTwoInStock.inv [⟨0, 5⟩] 1800 (by decide)
    (by
      intro it hit
      rcases List.mem_singleton.mp hit with rfl
      exact ⟨⟨0, "RBC A Adult", 700, 2⟩, by decide, by decide, by decide⟩)

/-! ## C7: FIFO pending-order retrieval and restock retries -/

/-- C7: `getPendingOrders` returns exactly the orders whose status is
pending or partially fulfilled, sorted by creation timestamp ascending;
and in the concrete FIFO scenario `stFifo` — order 10 enqueued strictly
before order 20, both pending for the same product, then a restock of a
single unit — the restock-triggered retry walks the queue in that order
and allocates the unit to order 10: it ends fulfilled while order 20
stays pending with the shelf empty again. -/
theorem getPendingOrders_fifo_spec :
    (∀ (orders : List OrderEntity) (o : OrderEntity),
      o ∈ getPendingOrders orders ↔ o ∈ orders ∧
        (o.status = OrderStatus.pending ∨ o.status = OrderStatus.partiallyFulfilled)) ∧
    (∀ orders : List OrderEntity,
      (getPendingOrders orders).Pairwise (fun a b => a.createdAt ≤ b.createdAt)) ∧
    (stFifo.orders.map (fun o => (o.orderId, o.status))
      = [(10, OrderStatus.fulfilled), (20, OrderStatus.pending)] ∧
     stFifo.inv.getAvailableStock 0 = 0) := by
  refine ⟨?_, ?_, by decide⟩
  · intro orders o
    rw [getPendingOrders, List.mem_insertionSort, List.mem_filter]
    simp
  · intro orders
    haveI htot : IsTotal OrderEntity (fun a b => a.createdAt ≤ b.createdAt) :=
      ⟨fun a b => Nat.le_total a.createdAt b.createdAt⟩
    haveI htr : IsTrans OrderEntity (fun a b => a.createdAt ≤ b.createdAt) :=
      ⟨fun a b c hab hbc => le_trans hab hbc⟩
    exact List.sorted_insertionSort _ _

/-! ## C3: catalog decrement commutation lemmas -/

theorem findProduct_adjustStock (c : List ProductEntity) (pid pid' : Nat) (f : Int → Int) :
    findProduct (adjustStock c pid f) pid' =
      if pid' = pid then
        (findProduct c pid).map (fun p => { p with quantityInStock := f p.quantityInStock })
      else findProduct c pid' := by
  induction c with
  | nil => simp [adjustStock, findProduct]
  | cons p₀ rest ih =>
    rw [adjustStock]
    by_cases h' : pid' = pid
    · subst h'
      rw [if_pos rfl]
      by_cases h₀ : p₀.productId = pid'
      · simp only [h₀, beq_self_eq_true, if_true]
        rw [findProduct, findProduct]
        simp [h₀]
      · simp only [beq_iff_eq, h₀, if_false]
        rw [findProduct, findProduct]
        simp only [beq_iff_eq, h₀, if_false]
        rw [ih, if_pos rfl]
    · rw [if_neg h']
      by_cases h₀ : p₀.productId = pid
      · simp only [h₀, beq_self_eq_true, if_true]
        rw [findProduct, findProduct]
        have h1 : ¬p₀.productId = pid' := by
          rw [h₀]
          exact fun hc => h' hc.symm
        simp only [beq_iff_eq, h1, if_false]
        simp [h₀]
        exact fun hc => absurd hc.symm h'
      · simp only [beq_iff_eq, h₀, if_false]
        rw [findProduct, findProduct]
        by_cases h₂ : p₀.productId = pid'
        · simp [h₂]
        · simp only [beq_iff_eq, h₂, if_false]
          rw [ih, if_neg h']

theorem adjustStock_sub_swap (c : List ProductEntity) (pid : Nat) (a b : Nat) :
    adjustStock (adjustStock c pid (fun q => q - (a : Int))) pid (fun q => q - (b : Int))
      = adjustStock (adjustStock c pid (fun q => q - (b : Int))) pid (fun q => q - (a : Int)) := by
  induction c with
  | nil => simp [adjustStock]
  | cons p₀ rest ih =>
    by_cases h₀ : p₀.productId = pid
    · simp only [adjustStock, h₀, beq_self_eq_true, if_true]
      have : p₀.quantityInStock - (a : Int) - b = p₀.quantityInStock - (b : Int) - a := by
        omega
      simp [this]
    · simp only [adjustStock, beq_iff_eq, h₀, if_false, ih]

theorem adjustStock_sub_split (c : List ProductEntity) (pid : Nat) (a b : Nat) :
    adjustStock c pid (fun q => q - ((a + b : Nat) : Int))
      = adjustStock (adjustStock c pid (fun q => q - (a : Int))) pid
          (fun q => q - (b : Int)) := by
  induction c with
  | nil => simp [adjustStock]
  | cons p₀ rest ih =>
    by_cases h₀ : p₀.productId = pid
    · simp only [adjustStock, h₀, beq_self_eq_true, if_true]
      have hsub : p₀.quantityInStock - ((a : Int) + (b : Int))
          = p₀.quantityInStock - (a : Int) - b := by
        omega
      simp [hsub]
    · simp only [adjustStock, beq_iff_eq, h₀, if_false, ih]

theorem adjustStock_comm (c : List ProductEntity) {pid pid' : Nat} (f g : Int → Int)
    (hne : pid ≠ pid') :
    adjustStock (adjustStock c pid f) pid' g = adjustStock (adjustStock c pid' g) pid f := by
  induction c with
  | nil => simp [adjustStock]
  | cons p₀ rest ih =>
    by_cases h₀ : p₀.productId = pid
    · have h₁ : ¬p₀.productId = pid' := fun hc => hne (h₀ ▸ hc)
      simp [adjustStock, h₀, h₁, hne, Ne.symm hne]
    · by_cases h₁ : p₀.productId = pid'
      · simp [adjustStock, h₀, h₁, hne, Ne.symm hne]
      · simp [adjustStock, h₀, h₁, ih]

theorem decAll_append (c : List ProductEntity) (xs ys : List Item) :
    decAll c (xs ++ ys) = decAll (decAll c xs) ys := by
  simp [decAll, List.foldl_append]

theorem decAll_adjust_comm (items : List Item) :
    ∀ (c : List ProductEntity) (pid : Nat) (q : Nat),
    decAll (adjustStock c pid (fun w => w - (q : Int))) items
      = adjustStock (decAll c items) pid (fun w => w - (q : Int)) := by
  induction items with
  | nil => intro c pid q; rfl
  | cons it rest ih =>
    intro c pid q
    show decAll (adjustStock (adjustStock c pid (fun w => w - (q : Int)))
        it.productId (fun w => w - (it.quantity : Int))) rest
      = adjustStock (decAll (adjustStock c it.productId
          (fun w => w - (it.quantity : Int))) rest) pid (fun w => w - (q : Int))
    by_cases h₀ : it.productId = pid
    · rw [h₀, adjustStock_sub_swap]
      exact ih _ pid q
    · rw [adjustStock_comm c _ _ (fun hc => h₀ hc.symm)]
      exact ih _ pid q

theorem decAll_mergeItem (t : List Item) :
    ∀ (c : List ProductEntity) (x : Item),
    decAll c (mergeItem t x)
      = adjustStock (decAll c t) x.productId (fun q => q - (x.quantity : Int)) := by
  induction t with
  | nil => intro c x; rfl
  | cons e rest ih =>
    intro c x
    rw [mergeItem]
    by_cases h₀ : e.productId = x.productId
    · simp only [h₀, beq_self_eq_true, if_true]
      show decAll (adjustStock c x.productId
          (fun w => w - ((e.quantity + x.quantity : Nat) : Int))) rest
        = adjustStock (decAll (adjustStock c e.productId
            (fun w => w - (e.quantity : Int))) rest) x.productId
            (fun w => w - (x.quantity : Int))
      rw [h₀, adjustStock_sub_split]
      exact decAll_adjust_comm rest _ x.productId x.quantity
    · simp only [beq_iff_eq, h₀, if_false]
      show decAll (adjustStock c e.productId _) (mergeItem rest x) = _
      rw [ih]
      rfl

theorem decAll_mergeInto (xs : List Item) :
    ∀ (c : List ProductEntity) (t : List Item),
    decAll c (mergeInto t xs) = decAll (decAll c t) xs := by
  induction xs with
  | nil => intro c t; rfl
  | cons x rest ih =>
    intro c t
    show decAll c (mergeInto (mergeItem t x) rest) = _
    rw [ih, decAll_mergeItem]
    rfl

/-! ## C3: merge-accumulator algebra -/

theorem mergeItem_quantity_split (s : List Item) (pid q₁ q₂ : Nat) :
    mergeItem s ⟨pid, q₁ + q₂⟩ = mergeItem (mergeItem s ⟨pid, q₁⟩) ⟨pid, q₂⟩ := by
  induction s with
  | nil => simp [mergeItem]
  | cons e rest ih =>
    rw [mergeItem]
    by_cases h₀ : e.productId = pid
    · simp only [h₀, beq_self_eq_true, if_true]
      rw [mergeItem]
      simp only [beq_iff_eq, h₀, beq_self_eq_true, if_true]
      rw [mergeItem]
      simp only [beq_iff_eq, h₀, beq_self_eq_true, if_true]
      simp [Nat.add_assoc]
    · simp only [beq_iff_eq, h₀, if_false]
      rw [mergeItem]
      simp only [beq_iff_eq, h₀, if_false]
      rw [mergeItem]
      simp only [beq_iff_eq, h₀, if_false, ih]

theorem mem_pids_mergeItem {s : List Item} {pid : Nat} (y : Item)
    (h : pid ∈ s.map Item.productId) :
    pid ∈ (mergeItem s y).map Item.productId := by
  induction s with
  | nil => simp at h
  | cons e rest ih =>
    rw [mergeItem]
    by_cases h₀ : e.productId = y.productId
    · simp only [h₀, beq_self_eq_true, if_true]
      simp only [List.map_cons, List.mem_cons] at h ⊢
      rcases h with h | h
      · left
        exact h.trans h₀
      · right
        exact h
    · simp only [beq_iff_eq, h₀, if_false]
      simp only [List.map_cons, List.mem_cons] at h ⊢
      rcases h with h | h
      · left
        exact h
      · right
        exact ih h

theorem self_mem_pids_mergeItem (s : List Item) (y : Item) :
    y.productId ∈ (mergeItem s y).map Item.productId := by
  induction s with
  | nil => simp [mergeItem]
  | cons e rest ih =>
    rw [mergeItem]
    by_cases h₀ : e.productId = y.productId
    · simp only [h₀, beq_self_eq_true, if_true]
      simp
    · simp only [beq_iff_eq, h₀, if_false]
      simp only [List.map_cons, List.mem_cons]
      right
      exact ih

theorem mergeItem_mergeItem_comm {s : List Item} {x : Item} (y : Item)
    (hmem : x.productId ∈ s.map Item.productId) :
    mergeItem (mergeItem s x) y = mergeItem (mergeItem s y) x := by
  induction s with
  | nil => simp at hmem
  | cons e rest ih =>
    have hmem' : e.productId = x.productId ∨ x.productId ∈ rest.map Item.productId := by
      rcases List.mem_map.mp hmem with ⟨it, hit, heq⟩
      rcases List.mem_cons.mp hit with h1 | h1
      · exact Or.inl (h1 ▸ heq)
      · exact Or.inr (List.mem_map.mpr ⟨it, h1, heq⟩)
    by_cases h₀ : e.productId = x.productId
    · by_cases h₁ : e.productId = y.productId
      · rw [mergeItem]
        simp only [h₀, beq_self_eq_true, if_true]
        rw [mergeItem]
        simp only [beq_iff_eq, h₁, beq_self_eq_true, if_true]
        rw [mergeItem]
        simp only [beq_iff_eq, h₁, beq_self_eq_true, if_true]
        rw [mergeItem]
        simp only [beq_iff_eq, h₀, beq_self_eq_true, if_true]
        have hxy : x.productId = y.productId := h₀.symm.trans h₁
        simp [hxy, Nat.add_right_comm]
      · rw [mergeItem]
        simp only [h₀, beq_self_eq_true, if_true]
        rw [mergeItem]
        simp only [beq_iff_eq, h₁, if_false]
        rw [mergeItem]
        simp only [beq_iff_eq, h₁, if_false]
        rw [mergeItem]
        simp only [beq_iff_eq, h₀, beq_self_eq_true, if_true]
        have hxy : ¬x.productId = y.productId := fun hc => h₁ (h₀.trans hc)
        rw [if_neg hxy]
    · by_cases h₁ : e.productId = y.productId
      · rw [mergeItem]
        simp only [beq_iff_eq, h₀, if_false]
        rw [mergeItem]
        simp only [beq_iff_eq, h₁, beq_self_eq_true, if_true]
        rw [mergeItem]
        simp only [beq_iff_eq, h₁, beq_self_eq_true, if_true]
        rw [mergeItem]
        simp only [beq_iff_eq, h₀, if_false]
        have hyx : ¬y.productId = x.productId := fun hc => h₀ (h₁.trans hc)
        rw [if_neg hyx]
      · rcases hmem' with hm | hm
        · exact absurd hm h₀
        · rw [mergeItem]
          simp only [beq_iff_eq, h₀, if_false]
          rw [mergeItem]
          simp only [beq_iff_eq, h₁, if_false]
          rw [mergeItem]
          simp only [beq_iff_eq, h₁, if_false]
          rw [mergeItem]
          simp only [beq_iff_eq, h₀, if_false]
          rw [ih hm]

theorem mergeInto_mergeItem_left (t : List Item) :
    ∀ (s : List Item) (x : Item), x.productId ∈ s.map Item.productId →
    mergeInto (mergeItem s x) t = mergeItem (mergeInto s t) x := by
  induction t with
  | nil => intro s x hmem; rfl
  | cons y t ih =>
    intro s x hmem
    show mergeInto (mergeItem (mergeItem s x) y) t = _
    rw [mergeItem_mergeItem_comm y hmem]
    rw [ih _ x (mem_pids_mergeItem y hmem)]
    rfl

theorem mergeInto_mergeItem (t : List Item) :
    ∀ (s : List Item) (x : Item),
    mergeInto s (mergeItem t x) = mergeItem (mergeInto s t) x := by
  induction t with
  | nil => intro s x; rfl
  | cons e rest ih =>
    intro s x
    rw [mergeItem]
    by_cases h₀ : e.productId = x.productId
    · simp only [h₀, beq_self_eq_true, if_true]
      show mergeInto (mergeItem s ⟨x.productId, e.quantity + x.quantity⟩) rest = _
      rw [mergeItem_quantity_split]
      rw [mergeInto_mergeItem_left rest (mergeItem s ⟨x.productId, e.quantity⟩)
        ⟨x.productId, x.quantity⟩
        (by simpa using self_mem_pids_mergeItem s ⟨x.productId, e.quantity⟩)]
      have hxe : (⟨x.productId, e.quantity⟩ : Item) = e := by
        rw [← h₀]
      rw [hxe]
      rfl
    · simp only [beq_iff_eq, h₀, if_false]
      show mergeInto (mergeItem s e) (mergeItem rest x) = _
      rw [ih _ x]
      rfl

theorem mergeInto_mergeInto (xs : List Item) :
    ∀ (s t : List Item),
    mergeInto s (mergeInto t xs) = mergeInto (mergeInto s t) xs := by
  induction xs with
  | nil => intro s t; rfl
  | cons x rest ih =>
    intro s t
    show mergeInto s (mergeInto (mergeItem t x) rest) = _
    rw [ih s (mergeItem t x), mergeInto_mergeItem]
    rfl

theorem mergeInto_append (s xs ys : List Item) :
    mergeInto s (xs ++ ys) = mergeInto (mergeInto s xs) ys := by
  simp [mergeInto, List.foldl_append]

theorem length_le_mergeItem (s : List Item) (x : Item) :
    s.length ≤ (mergeItem s x).length := by
  induction s with
  | nil => simp [mergeItem]
  | cons e rest ih =>
    rw [mergeItem]
    by_cases h₀ : e.productId = x.productId
    · simp [h₀]
    · simp only [beq_iff_eq, h₀, if_false, List.length_cons]
      omega

theorem length_le_mergeInto (xs : List Item) :
    ∀ s : List Item, s.length ≤ (mergeInto s xs).length := by
  induction xs with
  | nil => intro s; exact le_refl _
  | cons x rest ih =>
    intro s
    exact le_trans (length_le_mergeItem s x) (ih (mergeItem s x))

/-! ## C3: totalNeed and catalog frame lemmas -/

theorem totalNeed_cons (x : Item) (xs : List Item) (pid : Nat) :
    totalNeed (x :: xs) pid
      = (if x.productId = pid then x.quantity else 0) + totalNeed xs pid := by
  rw [totalNeed, totalNeed, List.filter_cons]
  by_cases h₀ : x.productId = pid
  · simp [h₀]
  · simp [h₀]

theorem totalNeed_append (xs ys : List Item) (pid : Nat) :
    totalNeed (xs ++ ys) pid = totalNeed xs pid + totalNeed ys pid := by
  simp [totalNeed, List.filter_append]

theorem totalNeed_mergeItem (t : List Item) (x : Item) (pid : Nat) :
    totalNeed (mergeItem t x) pid
      = totalNeed t pid + (if x.productId = pid then x.quantity else 0) := by
  induction t with
  | nil =>
    rw [mergeItem]
    rw [totalNeed_cons]
    simp [totalNeed]
  | cons e rest ih =>
    rw [mergeItem]
    by_cases h₀ : e.productId = x.productId
    · simp only [h₀, beq_self_eq_true, if_true]
      rw [totalNeed_cons, totalNeed_cons]
      by_cases h₁ : x.productId = pid
      · simp only [h₀, h₁, if_true]
        omega
      · have h₂ : ¬e.productId = pid := fun hc => h₁ (h₀ ▸ hc)
        simp only [h₀, h₁, if_false]
        omega
    · simp only [beq_iff_eq, h₀, if_false]
      rw [totalNeed_cons, totalNeed_cons, ih]
      omega

theorem totalNeed_mergeInto (xs : List Item) :
    ∀ (t : List Item) (pid : Nat),
    totalNeed (mergeInto t xs) pid = totalNeed t pid + totalNeed xs pid := by
  induction xs with
  | nil => intro t pid; simp [mergeInto, totalNeed]
  | cons x rest ih =>
    intro t pid
    show totalNeed (mergeInto (mergeItem t x) rest) pid = _
    rw [ih, totalNeed_mergeItem, totalNeed_cons]
    omega

theorem massOf_adjustStock (c : List ProductEntity) (pid pid' : Nat) (f : Int → Int) :
    massOf (adjustStock c pid f) pid' = massOf c pid' := by
  rw [massOf, massOf, findProduct_adjustStock]
  by_cases h : pid' = pid
  · subst h
    match hf : findProduct c pid' with
    | none => simp
    | some p => simp
  · simp [h]

theorem massOf_decAll (xs : List Item) :
    ∀ (c : List ProductEntity) (pid : Nat), massOf (decAll c xs) pid = massOf c pid := by
  induction xs with
  | nil => intro c pid; rfl
  | cons x rest ih =>
    intro c pid
    show massOf (decAll (adjustStock c x.productId _) rest) pid = _
    rw [ih, massOf_adjustStock]

theorem findProduct_isSome_adjustStock (c : List ProductEntity) (pid pid' : Nat)
    (f : Int → Int) :
    (findProduct (adjustStock c pid f) pid').isSome = (findProduct c pid').isSome := by
  rw [findProduct_adjustStock]
  by_cases h : pid' = pid
  · subst h
    simp
  · simp [h]

theorem findProduct_isSome_decAll (xs : List Item) :
    ∀ (c : List ProductEntity) (pid : Nat),
    (findProduct (decAll c xs) pid).isSome = (findProduct c pid).isSome := by
  induction xs with
  | nil => intro c pid; rfl
  | cons x rest ih =>
    intro c pid
    show (findProduct (decAll (adjustStock c x.productId _) rest) pid).isSome = _
    rw [ih, findProduct_isSome_adjustStock]

theorem stockOf_adjustStock_sub (c : List ProductEntity) (pid pid' : Nat) (q : Nat)
    (hpresent : pid' = pid → (findProduct c pid).isSome) :
    stockOf (adjustStock c pid (fun w => w - (q : Int))) pid'
      = stockOf c pid' - (if pid' = pid then (q : Int) else 0) := by
  rw [stockOf, stockOf, findProduct_adjustStock]
  by_cases h : pid' = pid
  · subst h
    match hf : findProduct c pid' with
    | none =>
      exact absurd (hf ▸ hpresent rfl) (by simp)
    | some p => simp
  · simp [h]

theorem stockOf_decAll (xs : List Item) :
    ∀ (c : List ProductEntity),
    (∀ it ∈ xs, (findProduct c it.productId).isSome) →
    ∀ pid, stockOf (decAll c xs) pid = stockOf c pid - (totalNeed xs pid : Int) := by
  induction xs with
  | nil =>
    intro c hk pid
    simp [decAll, totalNeed]
  | cons x rest ih =>
    intro c hk pid
    show stockOf (decAll (adjustStock c x.productId _) rest) pid = _
    rw [ih _ (fun it hit => by
      rw [findProduct_isSome_adjustStock]
      exact hk it (List.mem_cons_of_mem _ hit))]
    rw [stockOf_adjustStock_sub c x.productId pid x.quantity
      (fun _ => hk x (List.mem_cons_self x rest))]
    rw [totalNeed_cons]
    by_cases h : pid = x.productId
    · simp only [h, if_true]
      have h' : x.productId = pid := h.symm
      simp only [h', if_true]
      push_cast
      omega
    · have h' : ¬x.productId = pid := fun hc => h hc.symm
      simp only [h, h', if_false]
      push_cast
      omega

/-- The stock the guard of `reserveGo` reads for a present product. -/
theorem stockOf_eq_of_findProduct {c : List ProductEntity} {pid : Nat}
    {p : ProductEntity} (h : findProduct c pid = some p) :
    stockOf c pid = p.quantityInStock := by
  rw [stockOf, h]

/-- When every item names a present product and the aggregate demand per
product is within stock, the reservation loop succeeds and its effect is
exactly the unconditional decrement fold. -/
theorem reserveGo_ok (items : List Item) :
    ∀ (c : List ProductEntity),
    (∀ it ∈ items, (findProduct c it.productId).isSome) →
    (∀ it ∈ items, (totalNeed items it.productId : Int) ≤ stockOf c it.productId) →
    Inv.reserveGo c items = (none, decAll c items) := by
  induction items with
  | nil => intro c hk hs; rfl
  | cons x rest ih =>
    intro c hk hs
    rw [Inv.reserveGo]
    have hx := hk x (List.mem_cons_self x rest)
    match hf : findProduct c x.productId with
    | none => rw [hf] at hx; simp at hx
    | some p =>
      have hstock : (totalNeed (x :: rest) x.productId : Int) ≤ p.quantityInStock := by
        rw [← stockOf_eq_of_findProduct hf]
        exact hs x (List.mem_cons_self x rest)
      have hxq : (x.quantity : Int) ≤ p.quantityInStock := by
        rw [totalNeed_cons] at hstock
        simp only [if_pos rfl] at hstock
        push_cast at hstock
        omega
      have hguard : ¬p.quantityInStock < (x.quantity : Int) := not_lt.mpr hxq
      simp only [hguard, if_false]
      have hk' : ∀ it ∈ rest,
          (findProduct (adjustStock c x.productId
            fun q => q - (x.quantity : Int)) it.productId).isSome := by
        intro it hit
        rw [findProduct_isSome_adjustStock]
        exact hk it (List.mem_cons_of_mem _ hit)
      have hs' : ∀ it ∈ rest, (totalNeed rest it.productId : Int)
          ≤ stockOf (adjustStock c x.productId
            fun q => q - (x.quantity : Int)) it.productId := by
        intro it hit
        rw [stockOf_adjustStock_sub c x.productId it.productId x.quantity
          (fun _ => by rw [hf]; simp)]
        have hglobal := hs it (List.mem_cons_of_mem _ hit)
        rw [totalNeed_cons] at hglobal
        by_cases h : it.productId = x.productId
        · rw [h] at hglobal ⊢
          simp only [if_pos rfl] at hglobal ⊢
          push_cast at hglobal ⊢
          omega
        · have h' : ¬x.productId = it.productId := fun hc => h hc.symm
          simp only [h, if_false]
          simp only [h', if_false] at hglobal
          omega
      rw [ih _ hk' hs']
      rfl

/-! ## C3: mass invariance, merged-demand bookkeeping, closed forms -/

theorem calculateTotalMass_go (inv : Inv) (items : List Item) :
    ∀ total : Nat,
    items.foldl
      (fun total item =>
        match findProduct inv.catalog item.productId with
        | some p => total + p.massG * item.quantity
        | none => total)
      total = total + lineSum (massOf inv.catalog) items := by
  induction items with
  | nil => intro total; simp [lineSum]
  | cons it rest ih =>
    intro total
    rw [List.foldl_cons, ih]
    rw [lineSum, lineSum, List.map_cons, List.sum_cons]
    rw [massOf]
    match hf : findProduct inv.catalog it.productId with
    | none =>
      show total + _ = total + (0 * it.quantity + _)
      omega
    | some p =>
      show total + p.massG * it.quantity + _ = total + (p.massG * it.quantity + _)
      omega

theorem calculateTotalMass_eq_lineSum (inv : Inv) (items : List Item) :
    Inv.calculateTotalMass inv items = lineSum (massOf inv.catalog) items := by
  rw [Inv.calculateTotalMass, calculateTotalMass_go, Nat.zero_add]

theorem calculateTotalMass_decAll (inv : Inv) (xs : List Item) (items : List Item) :
    Inv.calculateTotalMass { inv with catalog := decAll inv.catalog xs } items
      = Inv.calculateTotalMass inv items := by
  rw [calculateTotalMass_eq_lineSum, calculateTotalMass_eq_lineSum]
  have h : massOf (decAll inv.catalog xs) = massOf inv.catalog := by
    funext pid
    exact massOf_decAll xs inv.catalog pid
  rw [show ({ inv with catalog := decAll inv.catalog xs } : Inv).catalog
    = decAll inv.catalog xs from rfl, h]

theorem pids_mergeItem_sub {s : List Item} {x : Item} {pid : Nat}
    (h : pid ∈ (mergeItem s x).map Item.productId) :
    pid ∈ s.map Item.productId ∨ pid = x.productId := by
  induction s with
  | nil =>
    rw [mergeItem] at h
    simp at h
    exact Or.inr h
  | cons e rest ih =>
    rw [mergeItem] at h
    by_cases h₀ : e.productId = x.productId
    · simp only [h₀, beq_self_eq_true, if_true] at h
      simp at h
      rcases h with h | h
      · exact Or.inr h
      · exact Or.inl (by simp; exact Or.inr h)
    · simp only [beq_iff_eq, h₀, if_false] at h
      simp at h
      rcases h with h | h
      · exact Or.inl (by simp [h])
      · rcases ih (by simpa using h) with h' | h'
        · exact Or.inl (by simp at h' ⊢; exact Or.inr h')
        · exact Or.inr h'

theorem pids_mergeInto_sub (xs : List Item) :
    ∀ {s : List Item} {pid : Nat}, pid ∈ (mergeInto s xs).map Item.productId →
    pid ∈ s.map Item.productId ∨ pid ∈ xs.map Item.productId := by
  induction xs with
  | nil => intro s pid h; exact Or.inl h
  | cons x rest ih =>
    intro s pid h
    have h' : pid ∈ (mergeInto (mergeItem s x) rest).map Item.productId := h
    rcases ih h' with h'' | h''
    · rcases pids_mergeItem_sub h'' with h₃ | h₃
      · exact Or.inl h₃
      · exact Or.inr (by simp [h₃])
    · exact Or.inr (by rw [List.map_cons]; exact List.mem_cons_of_mem _ h'')

/-- Successful reservation, lifted to the `Inv` wrapper. -/
theorem reserveStock_ok {inv : Inv} {items : List Item}
    (hk : ∀ it ∈ items, (findProduct inv.catalog it.productId).isSome)
    (hs : ∀ it ∈ items,
      (totalNeed items it.productId : Int) ≤ stockOf inv.catalog it.productId) :
    Inv.reserveStock inv items = (none, { inv with catalog := decAll inv.catalog items }) := by
  rw [Inv.reserveStock, reserveGo_ok items inv.catalog hk hs]

/-- `updateOrderShipment` on a present order is exactly an
`afterShipments` update of that row. -/
theorem updateOrderShipment_ok {orders : List OrderEntity} {oid : Nat}
    {o : OrderEntity} (items : List Item) (h : findOrder orders oid = some o) :
    updateOrderShipment orders oid items
      = (none, replaceOrder orders (afterShipments o items 1)) := by
  rw [updateOrderShipment, h]
  rfl

theorem isOrderFulfilled_congr {o₁ o₂ : OrderEntity}
    (h₁ : o₁.requestedItems = o₂.requestedItems)
    (h₂ : o₁.shippedItems = o₂.shippedItems) :
    isOrderFulfilled o₁ = isOrderFulfilled o₂ := by
  rw [isOrderFulfilled, isOrderFulfilled, h₁, h₂]

theorem orderEntity_eq {a b : OrderEntity}
    (h1 : a.orderId = b.orderId) (h2 : a.requestedItems = b.requestedItems)
    (h3 : a.shippedItems = b.shippedItems) (h4 : a.status = b.status)
    (h5 : a.totalShipments = b.totalShipments) (h6 : a.createdAt = b.createdAt) :
    a = b := by
  cases a
  cases b
  dsimp at h1 h2 h3 h4 h5 h6
  subst h1; subst h2; subst h3; subst h4; subst h5; subst h6
  rfl

theorem afterShipments_orderId (o : OrderEntity) (xs : List Item) (n : Nat) :
    (afterShipments o xs n).orderId = o.orderId := rfl

theorem afterShipments_requested (o : OrderEntity) (xs : List Item) (n : Nat) :
    (afterShipments o xs n).requestedItems = o.requestedItems := rfl

/-- `isOrderFulfilled` reads only the requested and shipped item lists. -/
theorem isOrderFulfilled_mk (oid : Nat) (req shipped : List Item)
    (status : OrderStatus) (total created : Nat) :
    isOrderFulfilled (OrderEntity.mk oid req shipped status total created)
      = req.all (fun r =>
          !((match findItem shipped r.productId with
             | some s => s.quantity
             | none => 0) < r.quantity)) := rfl

/-- Two successive `afterShipments` updates collapse: shipped quantities
accumulate, shipment counts add, and the status is recomputed from the
final shipped list. -/
theorem afterShipments_compose (o : OrderEntity) (xs ys : List Item) (m n : Nat) :
    afterShipments (afterShipments o xs m) ys n = afterShipments o (xs ++ ys) (m + n) := by
  cases o with
  | mk oid req shipped status total created =>
    dsimp only [afterShipments]
    simp only [isOrderFulfilled_mk]
    rw [mergeInto_append, Nat.add_assoc]

theorem inv_eq {a b : Inv} (h1 : a.catalog = b.catalog)
    (h2 : a.isInitialized = b.isInitialized) : a = b := by
  cases a
  cases b
  dsimp at h1 h2
  subst h1; subst h2
  rfl

theorem fState_eq {a b : FState} (h1 : a.inv = b.inv) (h2 : a.orders = b.orders)
    (h3 : a.shipments = b.shipments) (h4 : a.now = b.now) : a = b := by
  cases a
  cases b
  dsimp at h1 h2 h3 h4
  subst h1; subst h2; subst h3; subst h4
  rfl

/-- A fully successful `shipPackage` call: its committed state in closed
form. -/
theorem shipPackage_ok {st : FState} {orderId : Nat} {o : OrderEntity} {pkg : Package}
    (horder : findOrder st.orders orderId = some o)
    (hk : ∀ it ∈ pkg, (findProduct st.inv.catalog it.productId).isSome)
    (hs : ∀ it ∈ pkg,
      (totalNeed pkg it.productId : Int) ≤ stockOf st.inv.catalog it.productId)
    (hw : Inv.calculateTotalMass st.inv pkg ≤ MAX_PACKAGE_WEIGHT_G) :
    shipPackage st orderId pkg
      = (none,
        { st with
          inv := { st.inv with catalog := decAll st.inv.catalog pkg }
          shipments := st.shipments ++
            [(⟨orderId, pkg, Inv.calculateTotalMass st.inv pkg⟩ : ShipmentEntity)]
          orders := replaceOrder st.orders (afterShipments o pkg 1) }) := by
  rw [shipPackage, if_neg (not_lt.mpr hw), reserveStock_ok hk hs,
    updateOrderShipment_ok pkg horder]

/-- A successful first package reduces the package loop to the tail. -/
theorem shipLoop_cons {st st₁ : FState} {orderId : Nat} {pkg : Package}
    {rest : List Package} (h : shipPackage st orderId pkg = (none, st₁)) :
    shipLoop st orderId (pkg :: rest) = shipLoop st₁ orderId rest := by
  rw [shipLoop, h]

/-- Closed form of a fully successful sequential pass: the stock is
decremented by the concatenation of all packages, one shipment record is
appended per package (masses read from the starting catalog), and the
order row absorbs all shipped quantities with `totalShipments` increased
by the number of packages. -/
theorem shipLoop_ok (orderId : Nat) (pkgs : List Package) :
    ∀ (st : FState) (o : OrderEntity) (pkg : Package),
    findOrder st.orders orderId = some o →
    (∀ it ∈ (pkg :: pkgs).join, (findProduct st.inv.catalog it.productId).isSome) →
    (∀ it ∈ (pkg :: pkgs).join,
      (totalNeed (pkg :: pkgs).join it.productId : Int) ≤ stockOf st.inv.catalog it.productId) →
    (∀ p ∈ pkg :: pkgs, Inv.calculateTotalMass st.inv p ≤ MAX_PACKAGE_WEIGHT_G) →
    shipLoop st orderId (pkg :: pkgs)
      = (none,
        { st with
          inv := { st.inv with catalog := decAll st.inv.catalog (pkg :: pkgs).join }
          shipments := st.shipments ++ (pkg :: pkgs).map
            (fun p => (⟨orderId, p, Inv.calculateTotalMass st.inv p⟩ : ShipmentEntity))
          orders := replaceOrder st.orders
            (afterShipments o (pkg :: pkgs).join (pkg :: pkgs).length) }) := by
  induction pkgs with
  | nil =>
    intro st o pkg horder hk hs hw
    have hj : (pkg :: ([] : List Package)).join = pkg := by simp
    rw [hj] at hk hs
    rw [shipLoop, shipPackage_ok horder hk hs (hw pkg (by simp)), hj]
    rfl
  | cons p₂ rest ih =>
    intro st o pkg horder hk hs hw
    have hkpkg : ∀ it ∈ pkg, (findProduct st.inv.catalog it.productId).isSome :=
      fun it hit => hk it (List.mem_append_left _ hit)
    have hspkg : ∀ it ∈ pkg,
        (totalNeed pkg it.productId : Int) ≤ stockOf st.inv.catalog it.productId := by
      intro it hit
      have h : (totalNeed (pkg ++ (p₂ :: rest).join) it.productId : Int)
          ≤ stockOf st.inv.catalog it.productId := hs it (List.mem_append_left _ hit)
      rw [totalNeed_append] at h
      push_cast at h ⊢
      omega
    have horder₁ : findOrder (replaceOrder st.orders (afterShipments o pkg 1)) orderId
        = some (afterShipments o pkg 1) :=
      findOrder_replaceOrder_self horder
        (by rw [afterShipments_orderId]; exact findOrder_orderId horder)
    have hk₁ : ∀ it ∈ (p₂ :: rest).join,
        (findProduct (decAll st.inv.catalog pkg) it.productId).isSome := by
      intro it hit
      rw [findProduct_isSome_decAll]
      exact hk it (List.mem_append_right _ hit)
    have hs₁ : ∀ it ∈ (p₂ :: rest).join,
        (totalNeed (p₂ :: rest).join it.productId : Int)
          ≤ stockOf (decAll st.inv.catalog pkg) it.productId := by
      intro it hit
      rw [stockOf_decAll pkg st.inv.catalog hkpkg]
      have h : (totalNeed (pkg ++ (p₂ :: rest).join) it.productId : Int)
          ≤ stockOf st.inv.catalog it.productId := hs it (List.mem_append_right _ hit)
      rw [totalNeed_append] at h
      push_cast at h ⊢
      omega
    have hw₁ : ∀ p ∈ p₂ :: rest,
        Inv.calculateTotalMass { st.inv with catalog := decAll st.inv.catalog pkg } p
          ≤ MAX_PACKAGE_WEIGHT_G := by
      intro p hp
      rw [calculateTotalMass_decAll]
      exact hw p (List.mem_cons_of_mem _ hp)
    rw [shipLoop_cons (shipPackage_ok horder hkpkg hspkg (hw pkg (List.mem_cons_self _ _)))]
    refine (ih
      { st with
        inv := { st.inv with catalog := decAll st.inv.catalog pkg }
        shipments := st.shipments ++
          [(⟨orderId, pkg, Inv.calculateTotalMass st.inv pkg⟩ : ShipmentEntity)]
        orders := replaceOrder st.orders (afterShipments o pkg 1) }
      (afterShipments o pkg 1) p₂ horder₁ hk₁ hs₁ hw₁).trans ?_
    refine congrArg (Prod.mk none) ?_
    refine fState_eq (inv_eq ?_ rfl) ?_ ?_ rfl
    · show decAll (decAll st.inv.catalog pkg) (p₂ :: rest).join
        = decAll st.inv.catalog (pkg :: p₂ :: rest).join
      rw [show (pkg :: p₂ :: rest).join = pkg ++ (p₂ :: rest).join from rfl, decAll_append]
    · show replaceOrder (replaceOrder st.orders (afterShipments o pkg 1))
          (afterShipments (afterShipments o pkg 1) (p₂ :: rest).join (p₂ :: rest).length)
        = replaceOrder st.orders
          (afterShipments o (pkg :: p₂ :: rest).join (pkg :: p₂ :: rest).length)
      rw [replaceOrder_replaceOrder (afterShipments_orderId _ _ _).symm]
      rw [afterShipments_compose]
      rw [show (pkg :: p₂ :: rest).join = pkg ++ (p₂ :: rest).join from rfl]
      rw [show (pkg :: p₂ :: rest).length = (p₂ :: rest).length + 1 from rfl, Nat.add_comm]
    · show (st.shipments ++
          [(⟨orderId, pkg, Inv.calculateTotalMass st.inv pkg⟩ : ShipmentEntity)]) ++
          (p₂ :: rest).map (fun p =>
            (⟨orderId, p, Inv.calculateTotalMass
              { st.inv with catalog := decAll st.inv.catalog pkg } p⟩ : ShipmentEntity))
        = st.shipments ++ (pkg :: p₂ :: rest).map
            (fun p => (⟨orderId, p, Inv.calculateTotalMass st.inv p⟩ : ShipmentEntity))
      have hmap : (fun p => (⟨orderId, p, Inv.calculateTotalMass
            { st.inv with catalog := decAll st.inv.catalog pkg } p⟩ : ShipmentEntity))
          = (fun p => (⟨orderId, p, Inv.calculateTotalMass st.inv p⟩ : ShipmentEntity)) := by
        funext p
        rw [calculateTotalMass_decAll]
      rw [hmap, List.append_assoc]
      rfl

theorem mergeInto_nil (s : List Item) : mergeInto s [] = s := rfl

theorem mergeInto_merge_nil (s J : List Item) :
    mergeInto s (mergeInto [] J) = mergeInto s J := by
  rw [mergeInto_mergeInto, mergeInto_nil]

theorem totalNeed_mergeInto_nil (xs : List Item) (pid : Nat) :
    totalNeed (mergeInto [] xs) pid = totalNeed xs pid := by
  rw [totalNeed_mergeInto]
  simp [totalNeed]

theorem isEmpty_false_of_len {l : List Item} (h : 1 ≤ l.length) : l.isEmpty = false := by
  cases l with
  | nil => simp at h
  | cons a t => rfl

theorem mergeInto_join_isEmpty {J : List Item} (h : J ≠ []) :
    (mergeInto [] J).isEmpty = false := by
  match J, h with
  | x :: J', _ =>
    have hlen : 1 ≤ (mergeInto [] (x :: J')).length := length_le_mergeInto J' [x]
    exact isEmpty_false_of_len hlen

/-- `afterShipments` depends on `added` only through the merged shipped
list. -/
theorem afterShipments_eq_of_merge (o : OrderEntity) (a b : List Item) (n : Nat)
    (h : mergeInto o.shippedItems a = mergeInto o.shippedItems b) :
    afterShipments o a n = afterShipments o b n := by
  cases o with
  | mk oid req shipped status total created =>
    dsimp only at h
    dsimp only [afterShipments]
    simp only [isOrderFulfilled_mk]
    rw [h]

/-- The aggregation fold of `processChunk` when no package is skipped
for weight: all package lines merged, one shipment record per package. -/
theorem processChunk_fold (st : FState) (orderId : Nat) (batch : List Package)
    (hw : ∀ p ∈ batch, Inv.calculateTotalMass st.inv p ≤ MAX_PACKAGE_WEIGHT_G) :
    ∀ (acc1 : List Item) (acc2 : List ShipmentEntity),
    batch.foldl
      (fun (acc : List Item × List ShipmentEntity) pkg =>
        if MAX_PACKAGE_WEIGHT_G < st.inv.calculateTotalMass pkg then acc
        else (mergeInto acc.1 pkg,
          acc.2 ++ [(⟨orderId, pkg, st.inv.calculateTotalMass pkg⟩ : ShipmentEntity)]))
      (acc1, acc2)
      = (mergeInto acc1 batch.join,
         acc2 ++ batch.map
           (fun p => (⟨orderId, p, Inv.calculateTotalMass st.inv p⟩ : ShipmentEntity))) := by
  induction batch with
  | nil => intro acc1 acc2; simp [mergeInto_nil]
  | cons pkg rest ih =>
    intro acc1 acc2
    rw [List.foldl_cons,
      if_neg (not_lt.mpr (hw pkg (List.mem_cons_self _ _)))]
    rw [ih (fun p hp => hw p (List.mem_cons_of_mem _ hp))]
    rw [show (pkg :: rest).join = pkg ++ rest.join from rfl, mergeInto_append]
    rw [List.map_cons, List.append_assoc]
    rfl

/-- A fully successful `processChunk` call in closed form: the merged
chunk demand is reserved, one record per package is inserted, and the
order absorbs the whole chunk with `totalShipments` increased by one. -/
theorem processChunk_ok {st : FState} {orderId : Nat} {o : OrderEntity}
    {batch : List Package}
    (horder : findOrder st.orders orderId = some o)
    (hk : ∀ it ∈ batch.join, (findProduct st.inv.catalog it.productId).isSome)
    (hs : ∀ it ∈ batch.join,
      (totalNeed batch.join it.productId : Int) ≤ stockOf st.inv.catalog it.productId)
    (hw : ∀ p ∈ batch, Inv.calculateTotalMass st.inv p ≤ MAX_PACKAGE_WEIGHT_G)
    (hne : batch.join ≠ []) :
    processChunk st orderId batch
      = (none,
        { st with
          inv := { st.inv with catalog := decAll st.inv.catalog batch.join }
          shipments := st.shipments ++ batch.map
            (fun p => (⟨orderId, p, Inv.calculateTotalMass st.inv p⟩ : ShipmentEntity))
          orders := replaceOrder st.orders (afterShipments o batch.join 1) }) := by
  have hpid : ∀ pid, pid ∈ (mergeInto [] batch.join).map Item.productId →
      ∃ it ∈ batch.join, it.productId = pid := by
    intro pid h
    rcases pids_mergeInto_sub batch.join h with h' | h'
    · simp at h'
    · rcases List.mem_map.mp h' with ⟨it, hit, heq⟩
      exact ⟨it, hit, heq⟩
  have hk' : ∀ it ∈ mergeInto [] batch.join,
      (findProduct st.inv.catalog it.productId).isSome := by
    intro it hit
    rcases hpid it.productId (List.mem_map_of_mem _ hit) with ⟨it', hit', hpid'⟩
    rw [← hpid']
    exact hk it' hit'
  have hs' : ∀ it ∈ mergeInto [] batch.join,
      (totalNeed (mergeInto [] batch.join) it.productId : Int)
        ≤ stockOf st.inv.catalog it.productId := by
    intro it hit
    rw [totalNeed_mergeInto_nil]
    rcases hpid it.productId (List.mem_map_of_mem _ hit) with ⟨it', hit', hpid'⟩
    rw [← hpid']
    exact hs it' hit'
  have hempty : (mergeInto [] batch.join).isEmpty = false := mergeInto_join_isEmpty hne
  rw [processChunk, processChunk_fold st orderId batch hw [] []]
  dsimp only
  rw [reserveStock_ok hk' hs', hempty,
    updateOrderShipment_ok _ horder, decAll_mergeInto,
    afterShipments_eq_of_merge o (mergeInto [] batch.join) batch.join 1
      (mergeInto_merge_nil _ _)]
  rfl

theorem join_append_eq {α : Type} (A B : List (List α)) :
    (A ++ B).join = A.join ++ B.join := by
  induction A with
  | nil => rfl
  | cons a A ih =>
    show a ++ (A ++ B).join = (a ++ A.join) ++ B.join
    rw [ih, List.append_assoc]

/-- A successful first chunk reduces the batch loop to the tail. -/
theorem batchGo_cons {st st₁ : FState} {orderId : Nat} {chunk : List Package}
    {rest : List (List Package)} (h : processChunk st orderId chunk = (none, st₁)) :
    batchGo st orderId (chunk :: rest) = batchGo st₁ orderId rest := by
  rw [batchGo, h]

/-- Closed form of a fully successful batch pass over a chunk list: the
stock is decremented by the concatenation of all packages, one shipment
record is appended per package, and the order absorbs all shipped
quantities with `totalShipments` increased by the number of chunks. -/
theorem batchGo_ok (orderId : Nat) (chunks : List (List Package)) :
    ∀ (st : FState) (o : OrderEntity) (c₁ : List Package),
    findOrder st.orders orderId = some o →
    (∀ it ∈ ((c₁ :: chunks).join).join, (findProduct st.inv.catalog it.productId).isSome) →
    (∀ it ∈ ((c₁ :: chunks).join).join,
      (totalNeed ((c₁ :: chunks).join).join it.productId : Int)
        ≤ stockOf st.inv.catalog it.productId) →
    (∀ p ∈ (c₁ :: chunks).join, Inv.calculateTotalMass st.inv p ≤ MAX_PACKAGE_WEIGHT_G) →
    (∀ c ∈ c₁ :: chunks, c.join ≠ []) →
    batchGo st orderId (c₁ :: chunks)
      = (none,
        { st with
          inv := { st.inv with catalog := decAll st.inv.catalog ((c₁ :: chunks).join).join }
          shipments := st.shipments ++ ((c₁ :: chunks).join).map
            (fun p => (⟨orderId, p, Inv.calculateTotalMass st.inv p⟩ : ShipmentEntity))
          orders := replaceOrder st.orders
            (afterShipments o ((c₁ :: chunks).join).join (c₁ :: chunks).length) }) := by
  induction chunks with
  | nil =>
    intro st o c₁ horder hk hs hw hne
    have hj : (c₁ :: ([] : List (List Package))).join = c₁ := by simp
    rw [hj] at hk hs hw
    rw [batchGo, processChunk_ok horder hk hs hw (hne c₁ (List.mem_cons_self _ _)), hj]
    rfl
  | cons c₂ rest ih =>
    intro st o c₁ horder hk hs hw hne
    have hjoin : ((c₁ :: c₂ :: rest).join).join = c₁.join ++ ((c₂ :: rest).join).join := by
      rw [show (c₁ :: c₂ :: rest).join = c₁ ++ (c₂ :: rest).join from rfl, join_append_eq]
    rw [hjoin] at hk hs
    have hk₁ : ∀ it ∈ c₁.join, (findProduct st.inv.catalog it.productId).isSome :=
      fun it hit => hk it (List.mem_append_left _ hit)
    have hs₁ : ∀ it ∈ c₁.join,
        (totalNeed c₁.join it.productId : Int) ≤ stockOf st.inv.catalog it.productId := by
      intro it hit
      have h := hs it (List.mem_append_left _ hit)
      rw [totalNeed_append] at h
      push_cast at h ⊢
      omega
    have hw₁ : ∀ p ∈ c₁, Inv.calculateTotalMass st.inv p ≤ MAX_PACKAGE_WEIGHT_G :=
      fun p hp => hw p (List.mem_append_left _ hp)
    have horder₁ : findOrder (replaceOrder st.orders (afterShipments o c₁.join 1)) orderId
        = some (afterShipments o c₁.join 1) :=
      findOrder_replaceOrder_self horder
        (by rw [afterShipments_orderId]; exact findOrder_orderId horder)
    have hk₂ : ∀ it ∈ ((c₂ :: rest).join).join,
        (findProduct (decAll st.inv.catalog c₁.join) it.productId).isSome := by
      intro it hit
      rw [findProduct_isSome_decAll]
      exact hk it (List.mem_append_right _ hit)
    have hs₂ : ∀ it ∈ ((c₂ :: rest).join).join,
        (totalNeed ((c₂ :: rest).join).join it.productId : Int)
          ≤ stockOf (decAll st.inv.catalog c₁.join) it.productId := by
      intro it hit
      rw [stockOf_decAll c₁.join st.inv.catalog hk₁]
      have h := hs it (List.mem_append_right _ hit)
      rw [totalNeed_append] at h
      push_cast at h ⊢
      omega
    have hw₂ : ∀ p ∈ (c₂ :: rest).join,
        Inv.calculateTotalMass { st.inv with catalog := decAll st.inv.catalog c₁.join } p
          ≤ MAX_PACKAGE_WEIGHT_G := by
      intro p hp
      rw [calculateTotalMass_decAll]
      exact hw p (List.mem_append_right _ hp)
    have hne₂ : ∀ c ∈ c₂ :: rest, c.join ≠ [] :=
      fun c hc => hne c (List.mem_cons_of_mem _ hc)
    rw [batchGo_cons (processChunk_ok horder hk₁ hs₁ hw₁ (hne c₁ (List.mem_cons_self _ _)))]
    refine (ih
      { st with
        inv := { st.inv with catalog := decAll st.inv.catalog c₁.join }
        shipments := st.shipments ++ c₁.map
          (fun p => (⟨orderId, p, Inv.calculateTotalMass st.inv p⟩ : ShipmentEntity))
        orders := replaceOrder st.orders (afterShipments o c₁.join 1) }
      (afterShipments o c₁.join 1) c₂ horder₁ hk₂ hs₂ hw₂ hne₂).trans ?_
    refine congrArg (Prod.mk none) ?_
    refine fState_eq (inv_eq ?_ rfl) ?_ ?_ rfl
    · show decAll (decAll st.inv.catalog c₁.join) ((c₂ :: rest).join).join
        = decAll st.inv.catalog ((c₁ :: c₂ :: rest).join).join
      rw [hjoin, decAll_append]
    · show replaceOrder (replaceOrder st.orders (afterShipments o c₁.join 1))
          (afterShipments (afterShipments o c₁.join 1) ((c₂ :: rest).join).join
            ((c₂ :: rest).length))
        = replaceOrder st.orders
            (afterShipments o ((c₁ :: c₂ :: rest).join).join ((c₁ :: c₂ :: rest).length))
      rw [replaceOrder_replaceOrder (afterShipments_orderId _ _ _).symm,
        afterShipments_compose, hjoin]
      rw [show (c₁ :: c₂ :: rest).length = (c₂ :: rest).length + 1 from rfl, Nat.add_comm]
    · show (st.shipments ++ c₁.map
            (fun p => (⟨orderId, p, Inv.calculateTotalMass st.inv p⟩ : ShipmentEntity)))
          ++ ((c₂ :: rest).join).map (fun p => (⟨orderId, p,
            Inv.calculateTotalMass
              { st.inv with catalog := decAll st.inv.catalog c₁.join } p⟩ : ShipmentEntity))
        = st.shipments ++ ((c₁ :: c₂ :: rest).join).map
            (fun p => (⟨orderId, p, Inv.calculateTotalMass st.inv p⟩ : ShipmentEntity))
      have hmap : (fun p => (⟨orderId, p, Inv.calculateTotalMass
            { st.inv with catalog := decAll st.inv.catalog c₁.join } p⟩ : ShipmentEntity))
          = (fun p => (⟨orderId, p, Inv.calculateTotalMass st.inv p⟩ : ShipmentEntity)) := by
        funext p
        rw [calculateTotalMass_decAll]
      rw [hmap, List.append_assoc,
        show (c₁ :: c₂ :: rest).join = c₁ ++ (c₂ :: rest).join from rfl,
        List.map_append]

/-- Chunking splits without loss: concatenating the chunks restores the
package list (the fuel is at least the list length). -/
theorem chunkGo_join (n : Nat) :
    ∀ (fuel : Nat) (l : List Package), l.length ≤ fuel → (chunkGo n fuel l).join = l := by
  intro fuel
  induction fuel with
  | zero =>
    intro l hl
    cases l with
    | nil => rfl
    | cons a t => simp at hl
  | succ fuel ih =>
    intro l hl
    cases l with
    | nil => rfl
    | cons pkg rest =>
      have hlen : (rest.drop (n - 1)).length ≤ fuel := by
        rw [List.length_drop]
        have h : rest.length + 1 ≤ fuel + 1 := hl
        omega
      show (pkg :: rest.take (n - 1)) ++ (chunkGo n fuel (rest.drop (n - 1))).join
        = pkg :: rest
      rw [ih _ hlen]
      show pkg :: (rest.take (n - 1) ++ rest.drop (n - 1)) = pkg :: rest
      rw [List.take_append_drop]

/-- Every package inside a chunk comes from the chunked list. -/
theorem chunkGo_subset (n : Nat) :
    ∀ (fuel : Nat) (l : List Package) (chunk : List Package),
    chunk ∈ chunkGo n fuel l → ∀ p ∈ chunk, p ∈ l := by
  intro fuel
  induction fuel with
  | zero =>
    intro l chunk hc
    cases l with
    | nil => simp [chunkGo] at hc
    | cons a t => simp [chunkGo] at hc
  | succ fuel ih =>
    intro l chunk hc p hp
    cases l with
    | nil => simp [chunkGo] at hc
    | cons pkg rest =>
      rw [chunkGo] at hc
      rcases List.mem_cons.mp hc with h | h
      · subst h
        rcases List.mem_cons.mp hp with h' | h'
        · subst h'
          exact List.mem_cons_self _ _
        · exact List.mem_cons_of_mem _ (List.take_subset _ _ h')
      · exact List.mem_cons_of_mem _ (List.drop_subset _ _ (ih _ chunk h p hp))

/-- Chunks are never empty. -/
theorem chunkGo_ne_nil (n : Nat) :
    ∀ (fuel : Nat) (l : List Package) (chunk : List Package),
    chunk ∈ chunkGo n fuel l → chunk ≠ [] := by
  intro fuel
  induction fuel with
  | zero =>
    intro l chunk hc
    cases l with
    | nil => simp [chunkGo] at hc
    | cons a t => simp [chunkGo] at hc
  | succ fuel ih =>
    intro l chunk hc
    cases l with
    | nil => simp [chunkGo] at hc
    | cons pkg rest =>
      rw [chunkGo] at hc
      rcases List.mem_cons.mp hc with h | h
      · subst h
        simp
      · exact ih _ chunk h

theorem join_ne_nil {chunk : List Package} (h : chunk ≠ [])
    (hp : ∀ p ∈ chunk, p ≠ []) : chunk.join ≠ [] := by
  match chunk, h with
  | p :: t, _ =>
    have hpne : p ≠ [] := hp p (List.mem_cons_self _ _)
    match p, hpne with
    | a :: p', _ =>
      show a :: (p' ++ t.join) ≠ []
      simp

/-- Closed form of a fully successful `batchShipPackages` call:
identical inventory, shipment records and shipped quantities as the
sequential closed form, but `totalShipments` grows by the number of
50-chunks instead of the number of packages. -/
theorem batchShipPackages_ok {st : FState} {orderId : Nat} {o : OrderEntity}
    {pkg : Package} {rest : List Package}
    (horder : findOrder st.orders orderId = some o)
    (hk : ∀ it ∈ (pkg :: rest).join, (findProduct st.inv.catalog it.productId).isSome)
    (hs : ∀ it ∈ (pkg :: rest).join,
      (totalNeed (pkg :: rest).join it.productId : Int) ≤ stockOf st.inv.catalog it.productId)
    (hw : ∀ p ∈ pkg :: rest, Inv.calculateTotalMass st.inv p ≤ MAX_PACKAGE_WEIGHT_G)
    (hne : ∀ p ∈ pkg :: rest, p ≠ []) :
    batchShipPackages st orderId (pkg :: rest)
      = (none,
        { st with
          inv := { st.inv with catalog := decAll st.inv.catalog (pkg :: rest).join }
          shipments := st.shipments ++ (pkg :: rest).map
            (fun p => (⟨orderId, p, Inv.calculateTotalMass st.inv p⟩ : ShipmentEntity))
          orders := replaceOrder st.orders
            (afterShipments o (pkg :: rest).join (chunkList 50 (pkg :: rest)).length) }) := by
  have hjoin : ((pkg :: rest.take (50 - 1)) ::
      chunkGo 50 rest.length (rest.drop (50 - 1))).join = pkg :: rest :=
    chunkGo_join 50 (pkg :: rest).length (pkg :: rest) (le_refl _)
  refine (batchGo_ok orderId (chunkGo 50 rest.length (rest.drop (50 - 1))) st o
    (pkg :: rest.take (50 - 1)) horder ?_ ?_ ?_ ?_).trans ?_
  · rw [hjoin]
    exact hk
  · rw [hjoin]
    exact hs
  · rw [hjoin]
    exact hw
  · intro c hc
    refine join_ne_nil (chunkGo_ne_nil 50 (pkg :: rest).length (pkg :: rest) c hc) ?_
    intro p hp
    exact hne p (chunkGo_subset 50 (pkg :: rest).length (pkg :: rest) c hc p hp)
  · rw [hjoin]
    rfl

/-- The order row of `stBatchDemo`. -/
def batchDemoOrder : OrderEntity :=
  { orderId := 7
    requestedItems := [⟨0, 202⟩]
    shippedItems := []
    status := OrderStatus.pending
    totalShipments := 0
    createdAt := 0 }

/-- Two single-unit packages: a batch run (one 50-chunk) against a
sequential run over them. -/
def demoPkgs : List Package := [[⟨0, 1⟩], [⟨0, 1⟩]]

set_option maxRecDepth 10000 in
/-- C3 (counterexample): 101 single-unit packages for order 7 (batch
mode's threshold scenario, chunks of 50) processed by
`batchShipPackages` versus one at a time by `shipPackage`. The committed
stock and the persisted shipment records agree, but the order's
`totalShipments` ends at 3 — one per chunk — instead of 101 — one per
package — so the final committed states are not identical. -/
theorem batch_vs_sequential_counterexample :
    (batchShipPackages stBatchDemo 7 batchDemoPackages).2.orders.map
        OrderEntity.totalShipments = [3] ∧
    (shipLoop stBatchDemo 7 batchDemoPackages).2.orders.map
        OrderEntity.totalShipments = [101] ∧
    (batchShipPackages stBatchDemo 7 batchDemoPackages).2.inv
      = (shipLoop stBatchDemo 7 batchDemoPackages).2.inv ∧
    (batchShipPackages stBatchDemo 7 batchDemoPackages).2.shipments
      = (shipLoop stBatchDemo 7 batchDemoPackages).2.shipments ∧
    (batchShipPackages stBatchDemo 7 batchDemoPackages).2
      ≠ (shipLoop stBatchDemo 7 batchDemoPackages).2 := by
  decide

/-- C3 (amended): when the order exists, every package line names a
known product, the total demand per product fits the available stock,
and every package is nonempty and within the weight ceiling, batch and
sequential processing both succeed and commit the same inventory, the
same shipment records, and the same shipped items and status on the
order row; the only difference is `totalShipments`, which grows by the
number of 50-package chunks in batch mode but by the number of packages
in sequential mode. -/
theorem batchShipPackages_vs_shipLoop (st : FState) (orderId : Nat) (o : OrderEntity)
    (pkg : Package) (rest : List Package)
    (horder : findOrder st.orders orderId = some o)
    (hk : ∀ it ∈ (pkg :: rest).join, (findProduct st.inv.catalog it.productId).isSome)
    (hs : ∀ it ∈ (pkg :: rest).join,
      (totalNeed (pkg :: rest).join it.productId : Int) ≤ stockOf st.inv.catalog it.productId)
    (hw : ∀ p ∈ pkg :: rest, Inv.calculateTotalMass st.inv p ≤ MAX_PACKAGE_WEIGHT_G)
    (hne : ∀ p ∈ pkg :: rest, p ≠ []) :
    shipLoop st orderId (pkg :: rest)
      = (none,
        { st with
          inv := { st.inv with catalog := decAll st.inv.catalog (pkg :: rest).join }
          shipments := st.shipments ++ (pkg :: rest).map
            (fun p => (⟨orderId, p, Inv.calculateTotalMass st.inv p⟩ : ShipmentEntity))
          orders := replaceOrder st.orders
            (afterShipments o (pkg :: rest).join (pkg :: rest).length) }) ∧
    batchShipPackages st orderId (pkg :: rest)
      = (none,
        { st with
          inv := { st.inv with catalog := decAll st.inv.catalog (pkg :: rest).join }
          shipments := st.shipments ++ (pkg :: rest).map
            (fun p => (⟨orderId, p, Inv.calculateTotalMass st.inv p⟩ : ShipmentEntity))
          orders := replaceOrder st.orders
            (afterShipments o (pkg :: rest).join (chunkList 50 (pkg :: rest)).length) }) :=
  ⟨shipLoop_ok orderId rest st o pkg horder hk hs hw,
   batchShipPackages_ok horder hk hs hw hne⟩

/-- Witness for C3's amended theorem: two single-unit packages against
the 202-unit shelf; the sequential run counts 2 shipments, the batch run
counts 1 (a single chunk), everything else identical. -/
theorem batchShipPackages_vs_shipLoop_witness :
    shipLoop stBatchDemo 7 demoPkgs
      = (none,
        { stBatchDemo with
          inv := { stBatchDemo.inv with
            catalog := decAll stBatchDemo.inv.catalog demoPkgs.join }
          shipments := stBatchDemo.shipments ++ demoPkgs.map
            (fun p => (⟨7, p, Inv.calculateTotalMass stBatchDemo.inv p⟩ : ShipmentEntity))
          orders := replaceOrder stBatchDemo.orders
            (afterShipments batchDemoOrder demoPkgs.join 2) }) ∧
    batchShipPackages stBatchDemo 7 demoPkgs
      = (none,
        { stBatchDemo with
          inv := { stBatchDemo.inv with
            catalog := decAll stBatchDemo.inv.catalog demoPkgs.join }
          shipments := stBatchDemo.shipments ++ demoPkgs.map
            (fun p => (⟨7, p, Inv.calculateTotalMass stBatchDemo.inv p⟩ : ShipmentEntity))
          orders := replaceOrder stBatchDemo.orders
            (afterShipments batchDemoOrder demoPkgs.join 1) }) :=
  batchShipPackages_vs_shipLoop stBatchDemo 7 batchDemoOrder [⟨0, 1⟩] [[⟨0, 1⟩]]
    (by decide) (by decide) (by decide) (by decide) (by decide)

end Fulfillment
